import Mathlib

/-!
Shallow embedding of the freud locality core (LinkCell.h and
NeighborComputeFunctional.h) together with proofs of the specified
properties of the shell enumerator, the cell-index wrap, the cell-chain
iterator, the parallel pair-compute driver and the per-worker scratch
buffers.  Machine integers of the C++ are modelled as Int or Nat with the
overflow-free ranges actually reached by the code; the C++ truncating `%`
is Int.tmod; fallible memory accesses return Option.
-/

namespace Freud

/-- Shallow embedding of the state of `IteratorCellShell` (LinkCell.h).
Fields mirror the C++ members: `m_range`, `m_stage` (a `char` holding
0..6), the current coordinates and the 2D flag. -/
structure IteratorCellShell where
  m_range : Int
  m_stage : Int
  m_current_x : Int
  m_current_y : Int
  m_current_z : Int
  m_is2D : Bool
deriving DecidableEq, Repr

/-- C++ bool-to-int conversion used in the arithmetic of
`IteratorCellShell::operator++` (`2 * wrapped * m_range` etc.). -/
def bi (p : Prop) [Decidable p] : Int := if p then 1 else 0

namespace IteratorCellShell

/-- Embedding of `IteratorCellShell::reset` (LinkCell.h).  The C++
parameter is an `unsigned int`; every call site passes a non-negative
value, modelled here as an `Int`. -/
def reset (is2D : Bool) (range : Int) : IteratorCellShell :=
  let s : IteratorCellShell :=
    { m_range := range
      m_stage := 0
      m_current_x := -range
      m_current_y := range
      m_current_z := if is2D then 0 else -range + 1
      m_is2D := is2D }
  if range = 0 then { s with m_current_z := 0, m_stage := 5 } else s

/-- Embedding of the constructor `IteratorCellShell(range, is2D)`. -/
def init (is2D : Bool) (range : Nat) : IteratorCellShell :=
  reset is2D range

/-- Embedding of `IteratorCellShell::operator++` (LinkCell.h).  The C++
computes a `wrapped` bool and mixes it into the coordinate arithmetic via
bool-to-int conversion; here the same conditions appear through `bi` and
as branch conditions.  In stages 0-3 the final `wrapped` is the x/y wrap
in 2D and the recomputed z wrap in 3D. -/
def inc (s : IteratorCellShell) : IteratorCellShell :=
  if s.m_stage = 0 then
    -- +y wedge: ++x, wrap on x >= range, then sweep z in 3D
    let x1 := s.m_current_x + 1
    let x2 := x1 - 2 * bi (s.m_range ≤ x1) * s.m_range
    if s.m_is2D then
      if s.m_range ≤ x1 then
        { s with m_stage := s.m_stage + 1, m_current_x := s.m_range }
      else { s with m_current_x := x2 }
    else
      let z1 := s.m_current_z + bi (s.m_range ≤ x1)
      let z2 := z1 + bi (s.m_range ≤ z1) * (1 - 2 * s.m_range)
      if s.m_range ≤ z1 then
        { s with m_stage := s.m_stage + 1, m_current_x := s.m_range,
                 m_current_z := z2 }
      else { s with m_current_x := x2, m_current_z := z2 }
  else if s.m_stage = 1 then
    -- +x wedge: --y, wrap on y <= -range
    let y1 := s.m_current_y - 1
    let y2 := y1 + 2 * bi (y1 ≤ -s.m_range) * s.m_range
    if s.m_is2D then
      if y1 ≤ -s.m_range then
        { s with m_stage := s.m_stage + 1, m_current_y := -s.m_range }
      else { s with m_current_y := y2 }
    else
      let z1 := s.m_current_z + bi (y1 ≤ -s.m_range)
      let z2 := z1 + bi (s.m_range ≤ z1) * (1 - 2 * s.m_range)
      if s.m_range ≤ z1 then
        { s with m_stage := s.m_stage + 1, m_current_y := -s.m_range,
                 m_current_z := z2 }
      else { s with m_current_y := y2, m_current_z := z2 }
  else if s.m_stage = 2 then
    -- -y wedge: --x, wrap on x <= -range
    let x1 := s.m_current_x - 1
    let x2 := x1 + 2 * bi (x1 ≤ -s.m_range) * s.m_range
    if s.m_is2D then
      if x1 ≤ -s.m_range then
        { s with m_stage := s.m_stage + 1, m_current_x := -s.m_range }
      else { s with m_current_x := x2 }
    else
      let z1 := s.m_current_z + bi (x1 ≤ -s.m_range)
      let z2 := z1 + bi (s.m_range ≤ z1) * (1 - 2 * s.m_range)
      if s.m_range ≤ z1 then
        { s with m_stage := s.m_stage + 1, m_current_x := -s.m_range,
                 m_current_z := z2 }
      else { s with m_current_x := x2, m_current_z := z2 }
  else if s.m_stage = 3 then
    -- -x wedge: ++y, wrap on y >= range; on exit 2D resets to the next
    -- range while 3D moves to the cap stages
    let y1 := s.m_current_y + 1
    let y2 := y1 - 2 * bi (s.m_range ≤ y1) * s.m_range
    if s.m_is2D then
      if s.m_range ≤ y1 then
        reset s.m_is2D (s.m_range + 1)
      else { s with m_current_y := y2 }
    else
      let z1 := s.m_current_z + bi (s.m_range ≤ y1)
      let z2 := z1 + bi (s.m_range ≤ z1) * (1 - 2 * s.m_range)
      if s.m_range ≤ z1 then
        { s with m_stage := s.m_stage + 1, m_current_x := -s.m_range,
                 m_current_y := -s.m_range, m_current_z := -s.m_range }
      else { s with m_current_y := y2, m_current_z := z2 }
  else
    -- -z and +z faces (stages 4, 5 and the switch default):
    -- iterate over x and y in the full (2N+1) square
    let x1 := s.m_current_x + 1
    let x2 := x1 - bi (s.m_range < x1) * (2 * s.m_range + 1)
    let y1 := s.m_current_y + bi (s.m_range < x1)
    let y2 := y1 - bi (s.m_range < y1) * (2 * s.m_range + 1)
    if s.m_range < y1 then
      if 5 < s.m_stage + 1 then reset s.m_is2D (s.m_range + 1)
      else
        { s with m_stage := s.m_stage + 1, m_current_x := x2,
                 m_current_y := y2, m_current_z := s.m_range }
    else { s with m_current_x := x2, m_current_y := y2 }

/-- Embedding of `IteratorCellShell::operator*`: the current offset. -/
def deref (s : IteratorCellShell) : Int × Int × Int :=
  (s.m_current_x, s.m_current_y, s.m_current_z)

/-- Embedding of `IteratorCellShell::operator==` (LinkCell.h): field-wise
comparison of range, coordinates, stage and dimensionality. -/
def shellEq (a b : IteratorCellShell) : Bool :=
  decide (a.m_range = b.m_range) && decide (a.m_current_x = b.m_current_x)
    && decide (a.m_current_y = b.m_current_y)
    && decide (a.m_current_z = b.m_current_z)
    && decide (a.m_stage = b.m_stage) && (a.m_is2D == b.m_is2D)

end IteratorCellShell

open IteratorCellShell in
/-- Number of states the shell enumerator passes through for shell N:
1 for N = 0, 8N in 2D, 24N² + 2 in 3D (the surface of the cube of side
2N+1). -/
def shellSteps (is2D : Bool) (N : Nat) : Nat :=
  if N = 0 then 1 else if is2D then 8 * N else 24 * N ^ 2 + 2

open IteratorCellShell in
/-- The offsets an `IteratorCellShell` loop dereferences while advancing
from the initial state of shell N for `shellSteps` steps. -/
def emittedOffsets (is2D : Bool) (N : Nat) : List (Int × Int × Int) :=
  (List.range (shellSteps is2D N)).map
    (fun i => deref (inc^[i] (init is2D N)))

/-! ### Cell grid index wrap (`LinkCell::getCellIndex`) -/

/-- Modelled from the spec: the row-major flattening consumed from the
flat-index collaborator (`Index3D` of Index1D.h, not among the analysed
sources): "row-major linearization over (width, height, depth)". -/
def flattenIndex3D (w h : Int) (x y z : Int) : Int :=
  x + w * (y + h * z)

/-- Embedding of the per-axis reduction in `LinkCell::getCellIndex`
(LinkCell.h): C++ truncating `%` (Int.tmod) followed by the conditional
`+ count` fixup for negative remainders. -/
def wrapCellCoord (count : Int) (a : Int) : Int :=
  let x := a.tmod count
  x + (if x < 0 then count else 0)

/-- Embedding of `LinkCell::getCellIndex` (LinkCell.h): wrap each axis
into [0, count), then flatten. -/
def getCellIndex (w h d : Int) (c : Int × Int × Int) : Int :=
  flattenIndex3D w h (wrapCellCoord w c.1) (wrapCellCoord h c.2.1)
    (wrapCellCoord d c.2.2)

/-! ### Ball-query constructor (`LinkCellQueryBallIterator`) -/

/-- Embedding of the `LinkCellQueryBallIterator` constructor logic
(LinkCell.h): the extra shell distance to search is 0 exactly when the
float comparison `m_r_max == cell_width` holds, else 1; the exact float
comparison is modelled over ℚ. -/
def extraSearchWidth (r_max cell_width : ℚ) : Int :=
  if r_max = cell_width then 0 else 1

/-! ### Cell-chain iterator (`IteratorLinkCell`) -/

/-- Embedding of `LINK_CELL_TERMINATOR` (LinkCell.h), `0xffffffff`. -/
def LINK_CELL_TERMINATOR : Nat := 0xffffffff

/-- Embedding of the state of `IteratorLinkCell` (LinkCell.h).  The raw
pointer `m_cell_list` together with the extent of its allocation
(`Np + Nc` unsigned ints) is modelled as the list of the allocation's
contents; reading memory through it is fallible. -/
structure IteratorLinkCell where
  m_cell_list : List Nat
  m_Np : Nat
  m_Nc : Nat
  m_cur_idx : Nat
  m_cell : Nat
deriving DecidableEq, Repr

namespace IteratorLinkCell

/-- Embedding of the `IteratorLinkCell` constructor: `m_cur_idx = Np + cell`. -/
def mkIter (cell_list : List Nat) (Np Nc cell : Nat) : IteratorLinkCell :=
  { m_cell_list := cell_list, m_Np := Np, m_Nc := Nc,
    m_cur_idx := Np + cell, m_cell := cell }

/-- Embedding of `IteratorLinkCell::atEnd` (LinkCell.h). -/
def atEnd (s : IteratorLinkCell) : Bool :=
  s.m_cur_idx = LINK_CELL_TERMINATOR

/-- Embedding of `IteratorLinkCell::next` (LinkCell.h):
`m_cur_idx = m_cell_list[m_cur_idx]; return m_cur_idx;`.  The array read
is modelled fallibly: `none` when `m_cur_idx` lies outside the
allocation of `Np + Nc` entries. -/
def next (s : IteratorLinkCell) : Option (IteratorLinkCell × Nat) :=
  match s.m_cell_list.get? s.m_cur_idx with
  | some v => some ({ s with m_cur_idx := v }, v)
  | none => none

end IteratorLinkCell

/-! ### Parallel pair-compute driver (NeighborComputeFunctional.h) -/

/-- Read-only view of a NeighborList as consumed by
`loop_over_NeighborList_parallel`: the flat bond array (two point ids per
bond), the distances and the weights, modelled as functions of the index
(entries beyond `2 * n_bonds` resp. `n_bonds` are never read). -/
structure NeighborListView where
  neighbors : Nat → Nat
  distances : Nat → ℚ
  weights : Nat → ℚ
  n_bonds : Nat

/-- The arguments of the single callback invocation the loop body of
`loop_over_NeighborList_parallel` performs for bond `b`:
`(neighbor_list[2b], neighbor_list[2b+1], distances[b], weights[b])`. -/
def bondCall (nl : NeighborListView) (b : Nat) : Nat × Nat × ℚ × ℚ :=
  (nl.neighbors (2 * b), nl.neighbors (2 * b + 1), nl.distances b,
    nl.weights b)

/-- The calls one worker performs for the contiguous blocked range
[b, b + len), in order. -/
def rangeCalls (nl : NeighborListView) (b len : Nat) :
    List (Nat × Nat × ℚ × ℚ) :=
  (List.range' b len).map (bondCall nl)

/-- Embedding of `loop_over_NeighborList_parallel`
(NeighborComputeFunctional.h) run on the single range [0, n_bonds): the
reference semantics every schedule must reproduce. -/
def loopNeighborListSeq (nl : NeighborListView) : List (Nat × Nat × ℚ × ℚ) :=
  rangeCalls nl 0 nl.n_bonds

/-- The contiguous (begin, length) chunks `tbb::blocked_range` carves
[b, b + sum sizes) into, given the chunk sizes. -/
def chunksFrom (b : Nat) : List Nat → List (Nat × Nat)
  | [] => []
  | s :: rest => (b, s) :: chunksFrom (b + s) rest

/-- The calls performed under a schedule given as a list of (begin,
length) chunks, each chunk processed in order by one worker; concurrent
execution is modelled by quantifying over permutations of the chunk
order at the theorem level. -/
def scheduleCalls (nl : NeighborListView) (chunks : List (Nat × Nat)) :
    List (Nat × Nat × ℚ × ℚ) :=
  chunks.flatMap (fun c => rangeCalls nl c.1 c.2)

/-- Modelled from the spec: one neighbor candidate produced by a
per-query-point iterator of the NeighborQuery interface (NeighborQuery.h
is not among the analysed sources): a reference point id and a
distance. -/
structure NeighborPoint where
  ref_id : Nat
  distance : ℚ
deriving DecidableEq, Repr

/-- Modelled from the spec: the live-query branch of
`loop_over_NeighborList` drains the iterator of query point i "to
exhaustion"; the iterator is abstracted by the finite list of candidates
it yields, and the loop body keeps those passing the call-site filter
`!qargs.exclude_ii || i != np.ref_id`, calling `cf(np.ref_id, i,
np.distance, 1)` with the weight hard-coded to 1. -/
def liveQueryCallsFor (exclude_ii : Bool) (iter : Nat → List NeighborPoint)
    (i : Nat) : List (Nat × Nat × ℚ × ℚ) :=
  (iter i).filterMap (fun np =>
    if ¬exclude_ii = true ∨ i ≠ np.ref_id then
      some (np.ref_id, i, np.distance, 1)
    else none)

/-- Embedding of the live-query branch of `loop_over_NeighborList`
(NeighborComputeFunctional.h): every query point i in [0, Np) is
processed. -/
def liveQueryCalls (exclude_ii : Bool) (iter : Nat → List NeighborPoint)
    (Np : Nat) : List (Nat × Nat × ℚ × ℚ) :=
  (List.range Np).flatMap (liveQueryCallsFor exclude_ii iter)

/-! ### Per-worker scratch buffers (`ETSArrayWrapper`) -/

/-- Embedding of `makeNewEmptyArray` (NeighborComputeFunctional.h):
`new T[size]` followed by `memset(0)`. -/
def makeNewEmptyArray (T : Type) [Zero T] (size : Nat) : List T :=
  List.replicate size 0

/-- Embedding of `ETSArrayWrapper` (NeighborComputeFunctional.h).  The
`tbb::enumerable_thread_specific<T*>` member is modelled by the
association list of worker slots already materialized (a slot value
`none` models a nullptr handed out by the default factory).
`factoryNull` records which factory lambda the container currently
holds: the default constructor installs `[](){ return nullptr; }`, while
the sized constructor and `update` install the lambda allocating
`makeNewEmptyArray<T>(m_size)` (reading `m_size` through `this` at call
time). -/
structure ETSArrayWrapper (T : Type) [Zero T] where
  m_size : Nat
  factoryNull : Bool
  slots : List (Nat × Option (List T))

namespace ETSArrayWrapper

variable {T : Type} [Zero T]

/-- Embedding of the default constructor `ETSArrayWrapper()`. -/
def mkDefault : ETSArrayWrapper T := ⟨0, true, []⟩

/-- Embedding of the sized constructor `ETSArrayWrapper(size)`. -/
def mkSized (size : Nat) : ETSArrayWrapper T := ⟨size, false, []⟩

/-- Embedding of `ETSArrayWrapper::update`: store the new size, delete
every existing per-worker array and assign a fresh
`enumerable_thread_specific` (discarding all existing slots) whose
factory allocates `m_size` zeroes. -/
def update (_w : ETSArrayWrapper T) (size : Nat) : ETSArrayWrapper T :=
  ⟨size, false, []⟩

/-- Running the wrapper's current factory lambda: the default factory
returns nullptr, the allocating factory returns a fresh zeroed array of
the current `m_size`. -/
def runFactory (w : ETSArrayWrapper T) : Option (List T) :=
  if w.factoryNull then none else some (makeNewEmptyArray T w.m_size)

/-- `array.local()` for worker `tid`: return the worker's existing slot,
or run the factory and record its result on first access by `tid`. -/
def localArray (w : ETSArrayWrapper T) (tid : Nat) :
    ETSArrayWrapper T × Option (List T) :=
  match w.slots.lookup tid with
  | some buf => (w, buf)
  | none => ({ w with slots := (tid, w.runFactory) :: w.slots },
             w.runFactory)

end ETSArrayWrapper

/-! ### Shell-trajectory infrastructure (proof-internal) -/

/-- Traversal order of one stage of the shell enumerator: `rows` sweeps
of `cols` entries each, the column index varying fastest. -/
def gridL {α : Type} (g : Nat → Nat → α) (cols : Nat) : Nat → List α
  | 0 => []
  | rows + 1 =>
      gridL g cols rows ++ (List.range cols).map (fun ci => g ci rows)

/-- 3D stage-0 state (+y wedge), column ci < 2N, row zi < 2N-1. -/
def st0 (N ci zi : Nat) : IteratorCellShell :=
  ⟨N, 0, -(N : Int) + ci, N, -(N : Int) + 1 + zi, false⟩

/-- 3D stage-1 state (+x wedge). -/
def st1 (N ci zi : Nat) : IteratorCellShell :=
  ⟨N, 1, N, (N : Int) - ci, -(N : Int) + 1 + zi, false⟩

/-- 3D stage-2 state (-y wedge). -/
def st2 (N ci zi : Nat) : IteratorCellShell :=
  ⟨N, 2, (N : Int) - ci, -(N : Int), -(N : Int) + 1 + zi, false⟩

/-- 3D stage-3 state (-x wedge). -/
def st3 (N ci zi : Nat) : IteratorCellShell :=
  ⟨N, 3, -(N : Int), -(N : Int) + ci, -(N : Int) + 1 + zi, false⟩

/-- 3D stage-4 state (-z face), ci, zi < 2N+1. -/
def st4 (N ci zi : Nat) : IteratorCellShell :=
  ⟨N, 4, -(N : Int) + ci, -(N : Int) + zi, -(N : Int), false⟩

/-- 3D stage-5 state (+z face). -/
def st5 (N ci zi : Nat) : IteratorCellShell :=
  ⟨N, 5, -(N : Int) + ci, -(N : Int) + zi, (N : Int), false⟩

/-- 2D stage-0 state, ci < 2N. -/
def sr0 (N ci : Nat) : IteratorCellShell :=
  ⟨N, 0, -(N : Int) + ci, N, 0, true⟩

/-- 2D stage-1 state. -/
def sr1 (N ci : Nat) : IteratorCellShell :=
  ⟨N, 1, N, (N : Int) - ci, 0, true⟩

/-- 2D stage-2 state. -/
def sr2 (N ci : Nat) : IteratorCellShell :=
  ⟨N, 2, (N : Int) - ci, -(N : Int), 0, true⟩

/-- 2D stage-3 state. -/
def sr3 (N ci : Nat) : IteratorCellShell :=
  ⟨N, 3, -(N : Int), -(N : Int) + ci, 0, true⟩

/-- The intended sequence of states of `IteratorCellShell` while
enumerating shell N. -/
def traj (d : Bool) (N : Nat) : List IteratorCellShell :=
  if N = 0 then [⟨0, 5, 0, 0, 0, d⟩]
  else if d then
    (List.range (2 * N)).map (sr0 N) ++ (List.range (2 * N)).map (sr1 N)
      ++ (List.range (2 * N)).map (sr2 N)
      ++ (List.range (2 * N)).map (sr3 N)
  else
    gridL (st0 N) (2 * N) (2 * N - 1) ++ gridL (st1 N) (2 * N) (2 * N - 1)
      ++ gridL (st2 N) (2 * N) (2 * N - 1)
      ++ gridL (st3 N) (2 * N) (2 * N - 1)
      ++ gridL (st4 N) (2 * N + 1) (2 * N + 1)
      ++ gridL (st5 N) (2 * N + 1) (2 * N + 1)

/-! ### Ball query over the cell grid

The implementation of `LinkCellQueryBallIterator::next`,
`LinkCell::computeCellList` and the Box collaborator live in source
files (LinkCell.cc, Box.h) that are not among the analysed sources; the
model below follows the spec: cell counts are
floor(box_length / minimum_cell_width) clamped to at least 1 per axis,
a point maps to cell floor((x + L/2) / (L/n)) per axis (wrapped through
`getCellIndex`), distances use the box minimum-image metric, and the
ball query drains every cell of shells 0 .. R where R is the minimum
radius with cell_width * radius >= r_max plus the extra search width,
deduplicating cells already searched. -/

/-- Modelled from the spec: an orthorhombic box (per-axis length and
periodicity flag), the nominal cell width and the indexed point set
(`pt` indexed by [0, n_points)). -/
structure LinkCellModel where
  Lx : ℚ
  Ly : ℚ
  Lz : ℚ
  px : Bool
  py : Bool
  pz : Bool
  cell_width : ℚ
  n_points : Nat
  pt : Nat → ℚ × ℚ × ℚ

/-- Modelled from the spec: per-axis cell count,
"floor(box_length / minimum_cell_width) clamped to at least 1". -/
def axisCells (L w : ℚ) : Nat := max ⌊L / w⌋.toNat 1

/-- Modelled from the spec: the per-axis integer cell coordinate of a
position, "i = floor((x + Lx/2) / w)" with w = L/n, written as
floor((x/L + 1/2) * n). -/
def cellCoordAxis (L : ℚ) (n : Nat) (x : ℚ) : Int :=
  ⌊(x / L + 1 / 2) * n⌋

/-- Modelled from the spec: the per-axis minimum-image separation
consumed from the Box collaborator: the plain difference for a
non-periodic axis, the difference reduced by the nearest multiple of L
for a periodic axis. -/
def deltaAxis (periodic : Bool) (L a b : ℚ) : ℚ :=
  if periodic then a - b - L * round ((a - b) / L) else a - b

/-- Coordinate-wise sum of a cell coordinate and a shell offset. -/
def addOffset (c δ : Int × Int × Int) : Int × Int × Int :=
  (c.1 + δ.1, c.2.1 + δ.2.1, c.2.2 + δ.2.2)

/-- Modelled from the spec: the last shell the ball query scans, "the
minimum radius such that cell width × radius ≥ the caller's search
cutoff" plus the extra search width of the ball-iterator constructor. -/
def ballSearchRadius (r_max cell_width : ℚ) : Nat :=
  (⌈r_max / cell_width⌉ + extraSearchWidth r_max cell_width).toNat

/-- All shell offsets scanned up to radius R: the concatenation of the
shell enumerator's emissions for ranges 0 .. R (3D grids). -/
def ballSearchOffsets (R : Nat) : List (Int × Int × Int) :=
  (List.range (R + 1)).flatMap (fun k => emittedOffsets false k)

namespace LinkCellModel

/-- Cell count along x. -/
def nx (m : LinkCellModel) : Nat := axisCells m.Lx m.cell_width

/-- Cell count along y. -/
def ny (m : LinkCellModel) : Nat := axisCells m.Ly m.cell_width

/-- Cell count along z. -/
def nz (m : LinkCellModel) : Nat := axisCells m.Lz m.cell_width

/-- The (unwrapped) integer cell coordinate of a position. -/
def cellCoordOf (m : LinkCellModel) (p : ℚ × ℚ × ℚ) : Int × Int × Int :=
  (cellCoordAxis m.Lx m.nx p.1, cellCoordAxis m.Ly m.ny p.2.1,
    cellCoordAxis m.Lz m.nz p.2.2)

/-- The flat cell id of a position: the wrapped row-major id computed by
`LinkCell::getCellIndex`. -/
def cellIdOf (m : LinkCellModel) (p : ℚ × ℚ × ℚ) : Int :=
  getCellIndex m.nx m.ny m.nz (m.cellCoordOf p)

/-- Squared minimum-image distance between two positions. -/
def distSq (m : LinkCellModel) (a b : ℚ × ℚ × ℚ) : ℚ :=
  deltaAxis m.px m.Lx a.1 b.1 ^ 2 + deltaAxis m.py m.Ly a.2.1 b.2.1 ^ 2
    + deltaAxis m.pz m.Lz a.2.2 b.2.2 ^ 2

/-- Modelled from the spec: the set of cell ids the ball query visits
for query point q: every shell offset up to the stopping radius,
resolved through the periodic wrap, with cells already searched skipped
(deduplication). -/
def searchedCells (m : LinkCellModel) (q : ℚ × ℚ × ℚ) (R : Nat) :
    List Int :=
  ((ballSearchOffsets R).map (fun δ =>
    getCellIndex m.nx m.ny m.nz (addOffset (m.cellCoordOf q) δ))).dedup

/-- Modelled from the spec: the point indices the ball-query iterator
yields before exhaustion: for each searched cell, the points of that
cell within r_max of the query point, honoring the exclude-self flag
(`!exclude_ii || i != query_point_idx` as in the drivers). -/
def ballQuery (m : LinkCellModel) (q : ℚ × ℚ × ℚ) (qidx : Nat) (r : ℚ)
    (ex : Bool) : List Nat :=
  (m.searchedCells q (ballSearchRadius r m.cell_width)).flatMap
    (fun cid => (List.range m.n_points).filter (fun i =>
      m.cellIdOf (m.pt i) = cid ∧ m.distSq (m.pt i) q ≤ r ^ 2 ∧
        (¬ex = true ∨ i ≠ qidx)))

/-- The brute-force reference set: every point within r_max of the
query point (squared comparison), honoring the exclude-self flag. -/
def bruteForceBall (m : LinkCellModel) (q : ℚ × ℚ × ℚ) (qidx : Nat)
    (r : ℚ) (ex : Bool) : List Nat :=
  (List.range m.n_points).filter (fun i =>
    m.distSq (m.pt i) q ≤ r ^ 2 ∧ (¬ex = true ∨ i ≠ qidx))

end LinkCellModel

/-- The spec's concrete scenario: a 10×10×10 non-periodic box with cell
width 2 and two points at (0,0,0) and (1,0,0). -/
def mdlC2 : LinkCellModel :=
  ⟨10, 10, 10, false, false, false, 2, 2,
    fun j => if j = 0 then ((0 : ℚ), (0 : ℚ), (0 : ℚ)) else (1, 0, 0)⟩

/-! ## Theorems -/

/-! ### Integer wrap helpers -/

theorem neg_tmod_left (a b : Int) : (-a).tmod b = -(a.tmod b) := by
  rw [Int.tmod_def, Int.tmod_def, Int.neg_tdiv]
  ring

theorem tmod_bounds (a w : Int) (hw : 0 < w) :
    -w < a.tmod w ∧ a.tmod w < w := by
  rcases le_or_lt 0 a with ha | ha
  · have h1 := Int.tmod_nonneg w ha
    have h2 := Int.tmod_lt_of_pos a hw
    omega
  · have h1 := Int.tmod_nonneg w (show (0 : Int) ≤ -a by omega)
    have h2 := Int.tmod_lt_of_pos (-a) hw
    have h3 : a.tmod w = -((-a).tmod w) := by
      rw [neg_tmod_left, neg_neg]
    omega

theorem wrap_dvd (a w : Int) : w ∣ a - a.tmod w := by
  refine ⟨a.tdiv w, ?_⟩
  have := Int.tdiv_add_tmod a w
  linarith

theorem wrapCellCoord_eq_emod (w a : Int) (hw : 0 < w) :
    wrapCellCoord w a = a % w := by
  have hb := tmod_bounds a w hw
  have hd := wrap_dvd a w
  obtain ⟨k, hk⟩ := hd
  set r := wrapCellCoord w a with hr
  have hrval : r = a.tmod w + (if a.tmod w < 0 then w else 0) := rfl
  have hr0 : 0 ≤ r := by rw [hrval]; split <;> omega
  have hr1 : r < w := by rw [hrval]; split <;> omega
  have ha : a = r + w * (if a.tmod w < 0 then k - 1 else k) := by
    rw [hrval]; split <;> [skip; skip] <;> ring_nf <;> omega
  calc r = r % w := (Int.emod_eq_of_lt hr0 hr1).symm
    _ = (r + w * (if a.tmod w < 0 then k - 1 else k)) % w := by
          rw [mul_comm, Int.add_mul_emod_self]
    _ = a % w := by rw [← ha]

/-- C3: `LinkCell::getCellIndex` reduces every axis by true modulo into
[0, count) and flattens row-major; it is the identity flattening on
in-range coordinates, and is invariant under adding any integer multiple
of the per-axis count. -/
theorem C3_cell_index_wrap (w h d : Int) (hw : 0 < w) (hh : 0 < h)
    (hd : 0 < d) (c : Int × Int × Int) :
    getCellIndex w h d c
        = flattenIndex3D w h (c.1 % w) (c.2.1 % h) (c.2.2 % d) ∧
    (0 ≤ c.1 → c.1 < w → 0 ≤ c.2.1 → c.2.1 < h → 0 ≤ c.2.2 → c.2.2 < d →
        getCellIndex w h d c = flattenIndex3D w h c.1 c.2.1 c.2.2) ∧
    (∀ k₁ k₂ k₃ : Int,
        getCellIndex w h d (c.1 + k₁ * w, c.2.1 + k₂ * h, c.2.2 + k₃ * d)
          = getCellIndex w h d c) := by
  have base : ∀ cc : Int × Int × Int, getCellIndex w h d cc
      = flattenIndex3D w h (cc.1 % w) (cc.2.1 % h) (cc.2.2 % d) := by
    intro cc
    rw [getCellIndex, wrapCellCoord_eq_emod w _ hw,
      wrapCellCoord_eq_emod h _ hh, wrapCellCoord_eq_emod d _ hd]
  refine ⟨base c, ?_, ?_⟩
  · intro h1 h2 h3 h4 h5 h6
    rw [base c, Int.emod_eq_of_lt h1 h2, Int.emod_eq_of_lt h3 h4,
      Int.emod_eq_of_lt h5 h6]
  · intro k₁ k₂ k₃
    rw [base, base c]
    simp only [Int.add_mul_emod_self]

theorem C3_cell_index_wrap_witness :
    getCellIndex 5 4 3 (-7, 9, 2)
        = flattenIndex3D 5 4 ((-7 : Int) % 5) ((9 : Int) % 4) ((2 : Int) % 3) ∧
    ((0 : Int) ≤ -7 → (-7 : Int) < 5 → (0 : Int) ≤ 9 → (9 : Int) < 4 →
        (0 : Int) ≤ 2 → (2 : Int) < 3 →
        getCellIndex 5 4 3 (-7, 9, 2) = flattenIndex3D 5 4 (-7) 9 2) ∧
    (∀ k₁ k₂ k₃ : Int,
        getCellIndex 5 4 3 (-7 + k₁ * 5, 9 + k₂ * 4, 2 + k₃ * 3)
          = getCellIndex 5 4 3 (-7, 9, 2)) :=
  C3_cell_index_wrap 5 4 3 (by norm_num) (by norm_num) (by norm_num)
    (-7, 9, 2)

/-- C4: the extra search width of a ball query is 0 exactly when r_max
equals the cell width and 1 in every other case. -/
theorem C4_extra_search_width (r w : ℚ) :
    (extraSearchWidth r w = 0 ↔ r = w) ∧
    (extraSearchWidth r w = 1 ↔ r ≠ w) ∧
    (extraSearchWidth r w = 0 ∨ extraSearchWidth r w = 1) := by
  unfold extraSearchWidth
  split_ifs with hrw <;> simp [hrw]

/-- C5 (counterexample): after `atEnd()` becomes true, one more `next()`
reads `m_cell_list[0xffffffff]`, outside the 2-entry allocation of this
concrete chain (Np = 1, Nc = 1): the access is out of bounds, refuting
"advancing once more after atEnd() is well-defined, performing no
out-of-bounds access". -/
theorem C5_counterexample :
    (⟨[LINK_CELL_TERMINATOR, 0], 1, 1, LINK_CELL_TERMINATOR, 0⟩
        : IteratorLinkCell).atEnd = true ∧
    (⟨[LINK_CELL_TERMINATOR, 0], 1, 1, LINK_CELL_TERMINATOR, 0⟩
        : IteratorLinkCell).next = none := by
  constructor
  · rfl
  · rw [IteratorLinkCell.next]
    have : ([LINK_CELL_TERMINATOR, 0].get? LINK_CELL_TERMINATOR)
        = none := by
      rw [List.get?_eq_none]
      norm_num [LINK_CELL_TERMINATOR]
    rw [this]

/-- C5 (amended): the end-of-chain condition is the explicit queryable
state `atEnd` (current index equals the terminator sentinel), but
advancing once more after `atEnd()` is an out-of-bounds read of
`m_cell_list[0xffffffff]` for every allocation of fewer than 2^32
entries: in the fallible memory model the access yields `none` rather
than a well-defined value. -/
theorem C5_iterator_end (s : IteratorLinkCell) (hend : s.atEnd = true)
    (hlen : s.m_cell_list.length < 2 ^ 32) :
    (s.atEnd = true ↔ s.m_cur_idx = LINK_CELL_TERMINATOR) ∧ s.next = none := by
  have hcur : s.m_cur_idx = LINK_CELL_TERMINATOR := by
    have := hend
    rwa [IteratorLinkCell.atEnd, decide_eq_true_eq] at this
  refine ⟨by simp [IteratorLinkCell.atEnd], ?_⟩
  rw [IteratorLinkCell.next]
  have hnone : s.m_cell_list.get? s.m_cur_idx = none := by
    rw [List.get?_eq_none, hcur]
    have : LINK_CELL_TERMINATOR = 2 ^ 32 - 1 := by norm_num [LINK_CELL_TERMINATOR]
    omega
  rw [hnone]

theorem C5_iterator_end_witness :
    ((⟨[LINK_CELL_TERMINATOR, 0], 1, 1, LINK_CELL_TERMINATOR, 0⟩
        : IteratorLinkCell).atEnd = true ↔
      (⟨[LINK_CELL_TERMINATOR, 0], 1, 1, LINK_CELL_TERMINATOR, 0⟩
        : IteratorLinkCell).m_cur_idx = LINK_CELL_TERMINATOR) ∧
    (⟨[LINK_CELL_TERMINATOR, 0], 1, 1, LINK_CELL_TERMINATOR, 0⟩
        : IteratorLinkCell).next = none :=
  C5_iterator_end _ (by rfl) (by norm_num)

/-! ### Parallel driver over a bond list -/

theorem scheduleCalls_chunksFrom (nl : NeighborListView) (sizes : List Nat)
    (b : Nat) :
    scheduleCalls nl (chunksFrom b sizes) = rangeCalls nl b sizes.sum := by
  induction sizes generalizing b with
  | nil => simp [scheduleCalls, chunksFrom, rangeCalls]
  | cons s rest ih =>
      rw [chunksFrom, scheduleCalls, List.flatMap_cons, ← scheduleCalls, ih]
      rw [rangeCalls, rangeCalls, rangeCalls, ← List.map_append]
      have hr : List.range' b s ++ List.range' (b + s) rest.sum
          = List.range' b (s :: rest).sum := by
        have := List.range'_append b s rest.sum 1
        simpa [Nat.add_comm, Nat.one_mul] using this
      rw [hr]

/-- C6: the bond-list driver performs exactly one callback invocation
per stored bond, with the two point ids, the distance and the weight
read unmodified from that bond's entries; any decomposition of
[0, n_bonds) into contiguous chunks, executed in any order, produces the
same multiset of invocations as the sequential reference loop. -/
theorem C6_nlist_driver (nl : NeighborListView) (sizes : List Nat)
    (sched : List (Nat × Nat)) (hsum : sizes.sum = nl.n_bonds)
    (hperm : sched.Perm (chunksFrom 0 sizes)) :
    (↑(scheduleCalls nl sched) : Multiset (Nat × Nat × ℚ × ℚ))
        = ↑(loopNeighborListSeq nl) ∧
    loopNeighborListSeq nl = (List.range nl.n_bonds).map (bondCall nl) := by
  constructor
  · rw [Multiset.coe_eq_coe]
    have h1 : (scheduleCalls nl sched).Perm
        (scheduleCalls nl (chunksFrom 0 sizes)) := by
      unfold scheduleCalls
      exact List.Perm.flatMap_right _ hperm
    rw [scheduleCalls_chunksFrom, hsum] at h1
    exact h1
  · rw [loopNeighborListSeq, rangeCalls, List.range_eq_range']

theorem C6_nlist_driver_witness :
    (↑(Freud.scheduleCalls ⟨fun i => i, fun i => i, fun _ => 1, 5⟩
          [(3, 2), (0, 3)]) : Multiset (Nat × Nat × ℚ × ℚ))
        = ↑(Freud.loopNeighborListSeq ⟨fun i => i, fun i => i, fun _ => 1, 5⟩) ∧
    Freud.loopNeighborListSeq ⟨fun i => i, fun i => i, fun _ => 1, 5⟩
        = (List.range 5).map (bondCall ⟨fun i => i, fun i => i, fun _ => 1, 5⟩) :=
  C6_nlist_driver ⟨fun i => i, fun i => i, fun _ => 1, 5⟩ [3, 2]
    [(3, 2), (0, 3)] (by norm_num)
    (by
      have : Freud.chunksFrom 0 [3, 2] = [(0, 3), (3, 2)] := rfl
      rw [this]
      exact List.Perm.swap (0, 3) (3, 2) [])

/-! ### Live-query driver: call-site filter and weight -/

/-- C7: in live-query mode every call passed to the pairwise function
has a reference id different from the query index whenever the
exclude-self flag is set (the filter sits at the call site), and the
weight argument is the constant 1. -/
theorem C7_live_query_filter (exclude_ii : Bool)
    (iter : Nat → List NeighborPoint) (Np : Nat) (c : Nat × Nat × ℚ × ℚ)
    (hc : c ∈ liveQueryCalls exclude_ii iter Np) :
    (exclude_ii = true → c.1 ≠ c.2.1) ∧ c.2.2.2 = 1 := by
  rw [liveQueryCalls, List.mem_flatMap] at hc
  obtain ⟨i, _, hmem⟩ := hc
  rw [liveQueryCallsFor, List.mem_filterMap] at hmem
  obtain ⟨np, _, hnp⟩ := hmem
  by_cases hex : ¬exclude_ii = true ∨ i ≠ np.ref_id
  · rw [if_pos hex] at hnp
    cases hnp
    rcases hex with hex | hex
    · exact ⟨fun hh => absurd hh hex, rfl⟩
    · exact ⟨fun _ hid => hex (by simpa using hid.symm), rfl⟩
  · rw [if_neg hex] at hnp
    cases hnp

theorem C7_live_query_filter_witness :
    (true = true → (1 : Nat) ≠ (0 : Nat)) ∧ (1 : ℚ) = 1 :=
  C7_live_query_filter true (fun _ => [⟨0, 1⟩, ⟨1, 2⟩]) 1 (1, 0, 2, 1)
    (by
      rw [liveQueryCalls]
      have h1 : (1, 0, (2 : ℚ), (1 : ℚ))
          ∈ liveQueryCallsFor true (fun _ => [⟨0, 1⟩, ⟨1, 2⟩]) 0 := by
        rw [liveQueryCallsFor]
        simp [List.filterMap]
      exact List.mem_flatMap.2 ⟨0, by norm_num, h1⟩)

/-! ### Per-worker scratch buffers -/

theorem lookup_mem_pairs {β : Type} (tid : Nat) (l : List (Nat × β))
    (v : β) (h : l.lookup tid = some v) : (tid, v) ∈ l := by
  induction l with
  | nil => cases h
  | cons e rest ih =>
      cases htid : tid == e.1 with
      | false =>
          simp only [List.lookup, htid] at h
          exact List.mem_cons_of_mem _ (ih h)
      | true =>
          simp only [List.lookup, htid] at h
          cases h
          have ht : tid = e.1 := by simpa using htid
          have he : (tid, e.2) = e := by rw [ht]
          rw [he]
          exact List.mem_cons_self e rest

/-- C9: a wrapper carrying the allocating factory for size n (as
produced by the sized constructor or by `update n`) hands any worker, on
that worker's first access, a fresh buffer of exactly n elements all
zero; `update` discards every materialized per-worker slot; the sized
constructor and `update` both install the allocating factory with the
requested size and no materialized slots. -/
theorem C9_scratch_buffers (T : Type) [Zero T] (n tid : Nat)
    (w w' : ETSArrayWrapper T) (hf : w'.factoryNull = false)
    (hs : w'.m_size = n) (hfirst : w'.slots.lookup tid = none) :
    (w'.localArray tid).2 = some (makeNewEmptyArray T n) ∧
    (makeNewEmptyArray T n).length = n ∧
    (∀ x ∈ makeNewEmptyArray T n, x = 0) ∧
    (w.update n).slots = [] ∧ (w.update n).factoryNull = false ∧
    (w.update n).m_size = n ∧
    (ETSArrayWrapper.mkSized n (T := T)).slots = [] ∧
    (ETSArrayWrapper.mkSized n (T := T)).factoryNull = false ∧
    (ETSArrayWrapper.mkSized n (T := T)).m_size = n := by
  refine ⟨?_, by simp [makeNewEmptyArray], ?_, rfl, rfl, rfl, rfl, rfl, rfl⟩
  · rw [ETSArrayWrapper.localArray, hfirst]
    rw [ETSArrayWrapper.runFactory, hf]
    simp [hs]
  · intro x hx
    rw [makeNewEmptyArray] at hx
    exact List.eq_of_mem_replicate hx

theorem C9_scratch_buffers_witness :
    ((ETSArrayWrapper.mkSized 2 (T := Int)).localArray 7).2
        = some (makeNewEmptyArray Int 2) ∧
    (makeNewEmptyArray Int 2).length = 2 ∧
    (∀ x ∈ makeNewEmptyArray Int 2, x = 0) ∧
    ((ETSArrayWrapper.mkDefault (T := Int)).update 2).slots = [] ∧
    ((ETSArrayWrapper.mkDefault (T := Int)).update 2).factoryNull = false ∧
    ((ETSArrayWrapper.mkDefault (T := Int)).update 2).m_size = 2 ∧
    (ETSArrayWrapper.mkSized 2 (T := Int)).slots = [] ∧
    (ETSArrayWrapper.mkSized 2 (T := Int)).factoryNull = false ∧
    (ETSArrayWrapper.mkSized 2 (T := Int)).m_size = 2 :=
  C9_scratch_buffers Int 2 7 (ETSArrayWrapper.mkDefault (T := Int))
    (ETSArrayWrapper.mkSized 2 (T := Int)) rfl rfl rfl

/-- C10: a wrapper still holding the default factory (default
construction, `update` never called) hands every worker a null buffer
pointer: any access in a state whose materialized slots are all null
returns null and preserves that invariant, and the default constructor
starts in such a state with the null factory installed. -/
theorem C10_default_null (T : Type) [Zero T] (tid : Nat)
    (w : ETSArrayWrapper T) (hf : w.factoryNull = true)
    (hslots : ∀ e ∈ w.slots, e.2 = (none : Option (List T))) :
    (w.localArray tid).2 = none ∧
    (w.localArray tid).1.factoryNull = true ∧
    (∀ e ∈ (w.localArray tid).1.slots, e.2 = (none : Option (List T))) ∧
    (ETSArrayWrapper.mkDefault (T := T)).factoryNull = true ∧
    (ETSArrayWrapper.mkDefault (T := T)).slots = [] := by
  have hrun : w.runFactory = none := by
    rw [ETSArrayWrapper.runFactory, hf]
    simp
  rw [ETSArrayWrapper.localArray]
  rcases hl : w.slots.lookup tid with _ | v
  · refine ⟨hrun, hf, ?_, rfl, rfl⟩
    intro e he
    rcases List.mem_cons.1 he with he | he
    · rw [he, hrun]
    · exact hslots e he
  · exact ⟨hslots _ (lookup_mem_pairs tid w.slots v hl), hf, hslots, rfl, rfl⟩

theorem C10_default_null_witness :
    ((ETSArrayWrapper.mkDefault (T := Int)).localArray 3).2 = none ∧
    ((ETSArrayWrapper.mkDefault (T := Int)).localArray 3).1.factoryNull = true ∧
    (∀ e ∈ ((ETSArrayWrapper.mkDefault (T := Int)).localArray 3).1.slots,
        e.2 = (none : Option (List Int))) ∧
    (ETSArrayWrapper.mkDefault (T := Int)).factoryNull = true ∧
    (ETSArrayWrapper.mkDefault (T := Int)).slots = [] :=
  C10_default_null Int 3 (ETSArrayWrapper.mkDefault (T := Int)) rfl
    (by intro e he; cases he)

/-! ### Shell-enumerator equality -/

theorem reset_m_range (d : Bool) (r : Int) :
    (IteratorCellShell.reset d r).m_range = r := by
  rw [IteratorCellShell.reset]
  split <;> rfl

theorem shellEq_iff (a b : IteratorCellShell) :
    IteratorCellShell.shellEq a b = true ↔ a = b := by
  cases a
  cases b
  simp only [IteratorCellShell.shellEq, Bool.and_eq_true, decide_eq_true_eq,
    beq_iff_eq, IteratorCellShell.mk.injEq]
  tauto

theorem inc_ne_self (s : IteratorCellShell) : IteratorCellShell.inc s ≠ s := by
  intro h
  simp only [IteratorCellShell.inc, bi] at h
  split_ifs at h
  all_goals
    first
    | (have hx := congrArg IteratorCellShell.m_current_x h
       simp only [] at hx
       omega)
    | (have hy := congrArg IteratorCellShell.m_current_y h
       simp only [] at hy
       omega)
    | (have hst := congrArg IteratorCellShell.m_stage h
       simp only [] at hst
       omega)
    | (have hr := congrArg IteratorCellShell.m_range h
       rw [reset_m_range] at hr
       omega)

/-- C8: two shell enumerators compare equal exactly when all their
components (range, stage, coordinates, dimensionality flag) coincide,
i.e. when they are the same state; identically constructed and equally
advanced instances compare equal; and advancing any state one step
yields a state that no longer compares equal to it. -/
theorem C8_shell_equality :
    (∀ a b : IteratorCellShell, IteratorCellShell.shellEq a b = true ↔ a = b) ∧
    (∀ (d : Bool) (N k : Nat),
        IteratorCellShell.shellEq
          (IteratorCellShell.inc^[k] (IteratorCellShell.init d N))
          (IteratorCellShell.inc^[k] (IteratorCellShell.init d N)) = true) ∧
    (∀ s : IteratorCellShell,
        IteratorCellShell.shellEq (IteratorCellShell.inc s) s = false) := by
  refine ⟨shellEq_iff, ?_, ?_⟩
  · intro d N k
    exact (shellEq_iff _ _).2 rfl
  · intro s
    rcases hb : IteratorCellShell.shellEq (IteratorCellShell.inc s) s with _ | _
    · rfl
    · exact absurd ((shellEq_iff _ _).1 hb) (inc_ne_self s)

/-! ### Generic traversal-list lemmas -/

theorem chain_map_range {α : Type} {f : α → α} {g : Nat → α} {c : Nat}
    (hstep : ∀ i, i + 1 < c → f (g i) = g (i + 1)) :
    List.Chain' (fun a b => f a = b) ((List.range c).map g) := by
  rcases c with _ | c
  · simp
  · rw [List.chain'_map]
    exact (List.chain'_range_succ _ c).2 (fun m hm => hstep m (by omega))

theorem head?_map_range {α : Type} (g : Nat → α) (c : Nat) (hc : 0 < c) :
    ((List.range c).map g).head? = some (g 0) := by
  rcases c with _ | c
  · omega
  · rw [List.range_succ_eq_map]
    simp

theorem getLast?_map_range {α : Type} (g : Nat → α) (c : Nat) (hc : 0 < c) :
    ((List.range c).map g).getLast? = some (g c.pred) := by
  rcases c with _ | c
  · omega
  · rw [List.range_succ, List.map_append]
    simp

theorem gridL_length {α : Type} (g : Nat → Nat → α) (cols rows : Nat) :
    (gridL g cols rows).length = rows * cols := by
  induction rows with
  | zero => simp [gridL]
  | succ r ih =>
      rw [gridL, List.length_append, ih, List.length_map,
        List.length_range]
      ring

theorem gridL_mem {α : Type} {g : Nat → Nat → α} {cols rows : Nat} {x : α} :
    x ∈ gridL g cols rows ↔ ∃ ci zi, ci < cols ∧ zi < rows ∧ g ci zi = x := by
  induction rows with
  | zero =>
      constructor
      · intro hx
        cases hx
      · rintro ⟨ci, zi, _, hzi, _⟩
        omega
  | succ r ih =>
      rw [gridL, List.mem_append, ih]
      constructor
      · rintro (⟨ci, zi, h1, h2, h3⟩ | hx)
        · exact ⟨ci, zi, h1, by omega, h3⟩
        · obtain ⟨ci, hci, hgx⟩ := List.mem_map.1 hx
          exact ⟨ci, r, List.mem_range.1 hci, by omega, hgx⟩
      · rintro ⟨ci, zi, h1, h2, h3⟩
        rcases Nat.lt_or_ge zi r with hzr | hzr
        · exact Or.inl ⟨ci, zi, h1, hzr, h3⟩
        · have : zi = r := by omega
          subst this
          exact Or.inr (List.mem_map.2 ⟨ci, List.mem_range.2 h1, h3⟩)

theorem gridL_head? {α : Type} (g : Nat → Nat → α) (cols rows : Nat)
    (hr : 0 < rows) (hc : 0 < cols) :
    (gridL g cols rows).head? = some (g 0 0) := by
  induction rows with
  | zero => omega
  | succ r ih =>
      rw [gridL]
      rcases Nat.eq_zero_or_pos r with hr0 | hr0
      · subst hr0
        rw [show gridL g cols 0 = [] from rfl, List.nil_append]
        exact head?_map_range _ _ hc
      · rw [List.head?_append, ih hr0]
        rfl

theorem gridL_getLast? {α : Type} (g : Nat → Nat → α) (cols rows : Nat)
    (hr : 0 < rows) (hc : 0 < cols) :
    (gridL g cols rows).getLast? = some (g cols.pred rows.pred) := by
  rcases rows with _ | r
  · omega
  · rw [gridL, List.getLast?_append, getLast?_map_range _ _ hc]
    rfl

theorem gridL_chain' {α : Type} {f : α → α} {g : Nat → Nat → α}
    (cols rows : Nat) (hc : 0 < cols)
    (hrow : ∀ zi ci, zi < rows → ci + 1 < cols → f (g ci zi) = g (ci + 1) zi)
    (hwrap : ∀ zi, zi + 1 < rows → f (g cols.pred zi) = g 0 (zi + 1)) :
    List.Chain' (fun a b => f a = b) (gridL g cols rows) := by
  induction rows with
  | zero => exact List.chain'_nil
  | succ r ih =>
      rw [gridL]
      refine List.Chain'.append
        (ih (fun zi ci hz hc2 => hrow zi ci (by omega) hc2)
            (fun zi hz => hwrap zi (by omega)))
        (chain_map_range (fun ci hci => hrow r ci (by omega) hci)) ?_
      intro x hx y hy
      rcases r with _ | r2
      · rw [show gridL g cols 0 = [] from rfl] at hx
        cases hx
      · rw [gridL_getLast? g cols (r2 + 1) (by omega) hc] at hx
        rw [head?_map_range _ _ hc] at hy
        have hx2 : g cols.pred r2 = x := by simpa using hx
        have hy2 : g 0 (r2 + 1) = y := by simpa using hy
        rw [← hx2, ← hy2]
        exact hwrap r2 (by omega)

theorem gridL_nodup {α : Type} {g : Nat → Nat → α} {cols rows : Nat}
    (hinj : ∀ a b a2 b2, a < cols → b < rows → a2 < cols → b2 < rows →
        g a b = g a2 b2 → a = a2 ∧ b = b2) :
    (gridL g cols rows).Nodup := by
  induction rows with
  | zero => exact List.nodup_nil
  | succ r ih =>
      rw [gridL]
      refine List.Nodup.append
        (ih (fun a b a2 b2 h1 h2 h3 h4 h5 =>
          hinj a b a2 b2 h1 (by omega) h3 (by omega) h5)) ?_ ?_
      · refine List.Nodup.map_on ?_ (List.nodup_range cols)
        intro x hx y hy hxy
        exact (hinj x r y r (List.mem_range.1 hx) (by omega)
          (List.mem_range.1 hy) (by omega) hxy).1
      · intro x hx hx2
        obtain ⟨ci, zi, h1, h2, h3⟩ := gridL_mem.1 hx
        obtain ⟨ci2, hci2, h4⟩ := List.mem_map.1 hx2
        rw [← h3] at h4
        have := (hinj ci2 r ci zi (List.mem_range.1 hci2) (by omega) h1
          (by omega) h4).2
        omega

theorem chain'_iterate {α : Type} {f : α → α} :
    ∀ (l : List α) (s : α), l.head? = some s →
      List.Chain' (fun a b => f a = b) l →
      ∀ (i : Nat) (h : i < l.length), f^[i] s = l.get ⟨i, h⟩ := by
  intro l
  induction l with
  | nil =>
      intro s hs
      cases hs
  | cons a t ih =>
      intro s hs hc i h
      have ha : a = s := by simpa using hs
      subst ha
      cases i with
      | zero => rfl
      | succ j =>
          cases t with
          | nil => simp at h
          | cons b t2 =>
              have hfab : f a = b := (List.chain'_cons.1 hc).1
              have hct := (List.chain'_cons.1 hc).2
              have hj := ih b rfl hct j (by simpa using h)
              rw [Function.iterate_succ_apply, hfab]
              exact hj

/-! ### Single-step lemmas for the shell enumerator -/

theorem inc_st0_row (N ci zi : Nat) (hz : zi < 2 * N - 1)
    (hc : ci + 1 < 2 * N) :
    IteratorCellShell.inc (st0 N ci zi) = st0 N (ci + 1) zi := by
  have h1 : ¬((N : Int) ≤ -(N : Int) + ci + 1) := by omega
  have h2 : ¬((N : Int) ≤ -(N : Int) + 1 + zi) := by omega
  simp [IteratorCellShell.inc, st0, bi, h1, h2, IteratorCellShell.mk.injEq]
  omega

theorem inc_st0_wrap (N zi : Nat) (hN : 1 ≤ N) (hz : zi + 1 < 2 * N - 1) :
    IteratorCellShell.inc (st0 N (2 * N - 1) zi) = st0 N 0 (zi + 1) := by
  have h1 : ((N : Int) ≤ -(N : Int) + ↑(2 * N - 1) + 1) := by omega
  have h2 : ¬((N : Int) ≤ -(N : Int) + 1 + ↑zi + 1) := by omega
  simp [IteratorCellShell.inc, st0, bi, h1, h2, IteratorCellShell.mk.injEq]
  omega

theorem inc_st0_to_st1 (N : Nat) (hN : 1 ≤ N) :
    IteratorCellShell.inc (st0 N (2 * N - 1) (2 * N - 2)) = st1 N 0 0 := by
  have h1 : ((N : Int) ≤ -(N : Int) + ↑(2 * N - 1) + 1) := by omega
  have h2 : ((N : Int) ≤ -(N : Int) + 1 + ↑(2 * N - 2) + 1) := by omega
  simp [IteratorCellShell.inc, st0, st1, bi, h1, h2,
    IteratorCellShell.mk.injEq]
  omega

theorem inc_st1_row (N ci zi : Nat) (hz : zi < 2 * N - 1)
    (hc : ci + 1 < 2 * N) :
    IteratorCellShell.inc (st1 N ci zi) = st1 N (ci + 1) zi := by
  have h1 : ¬((N : Int) - ci - 1 ≤ -(N : Int)) := by omega
  have h2 : ¬((N : Int) ≤ -(N : Int) + 1 + zi) := by omega
  simp [IteratorCellShell.inc, st1, bi, h1, h2, IteratorCellShell.mk.injEq]
  omega

theorem inc_st1_wrap (N zi : Nat) (hN : 1 ≤ N) (hz : zi + 1 < 2 * N - 1) :
    IteratorCellShell.inc (st1 N (2 * N - 1) zi) = st1 N 0 (zi + 1) := by
  have h1 : ((N : Int) - ↑(2 * N - 1) - 1 ≤ -(N : Int)) := by omega
  have h2 : ¬((N : Int) ≤ -(N : Int) + 1 + ↑zi + 1) := by omega
  simp [IteratorCellShell.inc, st1, bi, h1, h2, IteratorCellShell.mk.injEq]
  omega

theorem inc_st1_to_st2 (N : Nat) (hN : 1 ≤ N) :
    IteratorCellShell.inc (st1 N (2 * N - 1) (2 * N - 2)) = st2 N 0 0 := by
  have h1 : ((N : Int) - ↑(2 * N - 1) - 1 ≤ -(N : Int)) := by omega
  have h2 : ((N : Int) ≤ -(N : Int) + 1 + ↑(2 * N - 2) + 1) := by omega
  simp [IteratorCellShell.inc, st1, st2, bi, h1, h2,
    IteratorCellShell.mk.injEq]
  omega

theorem inc_st2_row (N ci zi : Nat) (hz : zi < 2 * N - 1)
    (hc : ci + 1 < 2 * N) :
    IteratorCellShell.inc (st2 N ci zi) = st2 N (ci + 1) zi := by
  have h1 : ¬((N : Int) - ci - 1 ≤ -(N : Int)) := by omega
  have h2 : ¬((N : Int) ≤ -(N : Int) + 1 + zi) := by omega
  simp [IteratorCellShell.inc, st2, bi, h1, h2, IteratorCellShell.mk.injEq]
  omega

theorem inc_st2_wrap (N zi : Nat) (hN : 1 ≤ N) (hz : zi + 1 < 2 * N - 1) :
    IteratorCellShell.inc (st2 N (2 * N - 1) zi) = st2 N 0 (zi + 1) := by
  have h1 : ((N : Int) - ↑(2 * N - 1) - 1 ≤ -(N : Int)) := by omega
  have h2 : ¬((N : Int) ≤ -(N : Int) + 1 + ↑zi + 1) := by omega
  simp [IteratorCellShell.inc, st2, bi, h1, h2, IteratorCellShell.mk.injEq]
  omega

theorem inc_st2_to_st3 (N : Nat) (hN : 1 ≤ N) :
    IteratorCellShell.inc (st2 N (2 * N - 1) (2 * N - 2)) = st3 N 0 0 := by
  have h1 : ((N : Int) - ↑(2 * N - 1) - 1 ≤ -(N : Int)) := by omega
  have h2 : ((N : Int) ≤ -(N : Int) + 1 + ↑(2 * N - 2) + 1) := by omega
  simp [IteratorCellShell.inc, st2, st3, bi, h1, h2,
    IteratorCellShell.mk.injEq]
  omega

theorem inc_st3_row (N ci zi : Nat) (hz : zi < 2 * N - 1)
    (hc : ci + 1 < 2 * N) :
    IteratorCellShell.inc (st3 N ci zi) = st3 N (ci + 1) zi := by
  have h1 : ¬((N : Int) ≤ -(N : Int) + ci + 1) := by omega
  have h2 : ¬((N : Int) ≤ -(N : Int) + 1 + zi) := by omega
  simp [IteratorCellShell.inc, st3, bi, h1, h2, IteratorCellShell.mk.injEq]
  omega

theorem inc_st3_wrap (N zi : Nat) (hN : 1 ≤ N) (hz : zi + 1 < 2 * N - 1) :
    IteratorCellShell.inc (st3 N (2 * N - 1) zi) = st3 N 0 (zi + 1) := by
  have h1 : ((N : Int) ≤ -(N : Int) + ↑(2 * N - 1) + 1) := by omega
  have h2 : ¬((N : Int) ≤ -(N : Int) + 1 + ↑zi + 1) := by omega
  simp [IteratorCellShell.inc, st3, bi, h1, h2, IteratorCellShell.mk.injEq]
  omega

theorem inc_st3_to_st4 (N : Nat) (hN : 1 ≤ N) :
    IteratorCellShell.inc (st3 N (2 * N - 1) (2 * N - 2)) = st4 N 0 0 := by
  have h1 : ((N : Int) ≤ -(N : Int) + ↑(2 * N - 1) + 1) := by omega
  have h2 : ((N : Int) ≤ -(N : Int) + 1 + ↑(2 * N - 2) + 1) := by omega
  simp [IteratorCellShell.inc, st3, st4, bi, h1, h2,
    IteratorCellShell.mk.injEq]

theorem inc_st4_row (N ci zi : Nat) (hz : zi < 2 * N + 1)
    (hc : ci + 1 < 2 * N + 1) :
    IteratorCellShell.inc (st4 N ci zi) = st4 N (ci + 1) zi := by
  have h1 : ¬((N : Int) < -(N : Int) + ci + 1) := by omega
  have h2 : ¬((N : Int) < -(N : Int) + zi) := by omega
  simp [IteratorCellShell.inc, st4, bi, h1, h2, IteratorCellShell.mk.injEq]
  omega

theorem inc_st4_wrap (N zi : Nat) (hz : zi + 1 < 2 * N + 1) :
    IteratorCellShell.inc (st4 N (2 * N) zi) = st4 N 0 (zi + 1) := by
  have h1 : ((N : Int) < -(N : Int) + 2 * (N : Int) + 1) := by omega
  have h2 : ¬((N : Int) < -(N : Int) + ↑zi + 1) := by omega
  simp [IteratorCellShell.inc, st4, bi, h1, h2, IteratorCellShell.mk.injEq]
  omega

theorem inc_st4_to_st5 (N : Nat) :
    IteratorCellShell.inc (st4 N (2 * N) (2 * N)) = st5 N 0 0 := by
  have h1 : ((N : Int) < -(N : Int) + 2 * (N : Int) + 1) := by omega
  have h2 : ((N : Int) < -(N : Int) + 2 * (N : Int) + 1) := by omega
  have h3 : ¬((5 : Int) < 4 + 1) := by omega
  simp [IteratorCellShell.inc, st4, st5, bi, h1, h2, h3,
    IteratorCellShell.mk.injEq]

theorem inc_st5_row (N ci zi : Nat) (hz : zi < 2 * N + 1)
    (hc : ci + 1 < 2 * N + 1) :
    IteratorCellShell.inc (st5 N ci zi) = st5 N (ci + 1) zi := by
  have h1 : ¬((N : Int) < -(N : Int) + ci + 1) := by omega
  have h2 : ¬((N : Int) < -(N : Int) + zi) := by omega
  simp [IteratorCellShell.inc, st5, bi, h1, h2, IteratorCellShell.mk.injEq]
  omega

theorem inc_st5_wrap (N zi : Nat) (hz : zi + 1 < 2 * N + 1) :
    IteratorCellShell.inc (st5 N (2 * N) zi) = st5 N 0 (zi + 1) := by
  have h1 : ((N : Int) < -(N : Int) + 2 * (N : Int) + 1) := by omega
  have h2 : ¬((N : Int) < -(N : Int) + ↑zi + 1) := by omega
  simp [IteratorCellShell.inc, st5, bi, h1, h2, IteratorCellShell.mk.injEq]
  omega

theorem inc_st5_to_next (N : Nat) :
    IteratorCellShell.inc (st5 N (2 * N) (2 * N))
      = IteratorCellShell.init false (N + 1) := by
  have h1 : ((N : Int) < -(N : Int) + 2 * (N : Int) + 1) := by omega
  have h3 : ((5 : Int) < 5 + 1) := by omega
  have hcast : ((N : Int) + 1) = ((N + 1 : Nat) : Int) := by push_cast; ring
  rw [IteratorCellShell.init, ← hcast]
  simp [IteratorCellShell.inc, st5, bi, h1, h3]

theorem inc_sr0_row (N ci : Nat) (hc : ci + 1 < 2 * N) :
    IteratorCellShell.inc (sr0 N ci) = sr0 N (ci + 1) := by
  have h1 : ¬((N : Int) ≤ -(N : Int) + ci + 1) := by omega
  simp [IteratorCellShell.inc, sr0, bi, h1, IteratorCellShell.mk.injEq]
  omega

theorem inc_sr0_to_sr1 (N : Nat) (hN : 1 ≤ N) :
    IteratorCellShell.inc (sr0 N (2 * N - 1)) = sr1 N 0 := by
  have h1 : ((N : Int) ≤ -(N : Int) + ↑(2 * N - 1) + 1) := by omega
  simp [IteratorCellShell.inc, sr0, sr1, bi, h1, IteratorCellShell.mk.injEq]

theorem inc_sr1_row (N ci : Nat) (hc : ci + 1 < 2 * N) :
    IteratorCellShell.inc (sr1 N ci) = sr1 N (ci + 1) := by
  have h1 : ¬((N : Int) - ci - 1 ≤ -(N : Int)) := by omega
  simp [IteratorCellShell.inc, sr1, bi, h1, IteratorCellShell.mk.injEq]
  omega

theorem inc_sr1_to_sr2 (N : Nat) (hN : 1 ≤ N) :
    IteratorCellShell.inc (sr1 N (2 * N - 1)) = sr2 N 0 := by
  have h1 : ((N : Int) - ↑(2 * N - 1) - 1 ≤ -(N : Int)) := by omega
  simp [IteratorCellShell.inc, sr1, sr2, bi, h1, IteratorCellShell.mk.injEq]

theorem inc_sr2_row (N ci : Nat) (hc : ci + 1 < 2 * N) :
    IteratorCellShell.inc (sr2 N ci) = sr2 N (ci + 1) := by
  have h1 : ¬((N : Int) - ci - 1 ≤ -(N : Int)) := by omega
  simp [IteratorCellShell.inc, sr2, bi, h1, IteratorCellShell.mk.injEq]
  omega

theorem inc_sr2_to_sr3 (N : Nat) (hN : 1 ≤ N) :
    IteratorCellShell.inc (sr2 N (2 * N - 1)) = sr3 N 0 := by
  have h1 : ((N : Int) - ↑(2 * N - 1) - 1 ≤ -(N : Int)) := by omega
  simp [IteratorCellShell.inc, sr2, sr3, bi, h1, IteratorCellShell.mk.injEq]

theorem inc_sr3_row (N ci : Nat) (hc : ci + 1 < 2 * N) :
    IteratorCellShell.inc (sr3 N ci) = sr3 N (ci + 1) := by
  have h1 : ¬((N : Int) ≤ -(N : Int) + ci + 1) := by omega
  simp [IteratorCellShell.inc, sr3, bi, h1, IteratorCellShell.mk.injEq]
  omega

theorem inc_sr3_to_next (N : Nat) (hN : 1 ≤ N) :
    IteratorCellShell.inc (sr3 N (2 * N - 1))
      = IteratorCellShell.init true (N + 1) := by
  have h1 : ((N : Int) ≤ -(N : Int) + ↑(2 * N - 1) + 1) := by omega
  have hcast : ((N : Int) + 1) = ((N + 1 : Nat) : Int) := by push_cast; ring
  rw [IteratorCellShell.init, ← hcast]
  simp [IteratorCellShell.inc, sr3, bi, h1]

theorem inc_zero (d : Bool) :
    IteratorCellShell.inc ⟨0, 5, 0, 0, 0, d⟩
      = IteratorCellShell.init d 1 := by
  have h1 : ((0 : Int) < 0 + 1) := by omega
  have h3 : ((5 : Int) < 5 + 1) := by omega
  rw [IteratorCellShell.init]
  have hcast : ((1 : Nat) : Int) = (0 : Int) + 1 := by norm_num
  rw [hcast]
  simp [IteratorCellShell.inc, bi, h1, h3]

/-! ### The trajectory of one shell -/

theorem chain'_append_sep {α : Type} {f : α → α} {l1 l2 : List α} {a b : α}
    (h1 : List.Chain' (fun x y => f x = y) l1)
    (h2 : List.Chain' (fun x y => f x = y) l2)
    (hl : l1.getLast? = some a) (hh : l2.head? = some b) (hab : f a = b) :
    List.Chain' (fun x y => f x = y) (l1 ++ l2) := by
  refine List.Chain'.append h1 h2 ?_
  intro x hx y hy
  rw [hl] at hx
  rw [hh] at hy
  have hx2 : a = x := by simpa using hx
  have hy2 : b = y := by simpa using hy
  rw [← hx2, ← hy2]
  exact hab

theorem getLast?_append_of_some {α : Type} (l1 : List α) {l2 : List α}
    {a : α} (h : l2.getLast? = some a) :
    (l1 ++ l2).getLast? = some a := by
  rw [List.getLast?_append, h]
  rfl

theorem init_eq_st0 (N : Nat) (hN : 1 ≤ N) :
    IteratorCellShell.init false N = st0 N 0 0 := by
  have hN0 : ¬((N : Int) = 0) := by omega
  simp [IteratorCellShell.init, IteratorCellShell.reset, st0, hN0,
    IteratorCellShell.mk.injEq]

theorem init_eq_sr0 (N : Nat) (hN : 1 ≤ N) :
    IteratorCellShell.init true N = sr0 N 0 := by
  have hN0 : ¬((N : Int) = 0) := by omega
  simp [IteratorCellShell.init, IteratorCellShell.reset, sr0, hN0,
    IteratorCellShell.mk.injEq]

theorem init_eq_zero (d : Bool) :
    IteratorCellShell.init d 0 = ⟨0, 5, 0, 0, 0, d⟩ := by
  simp [IteratorCellShell.init, IteratorCellShell.reset]

theorem traj_chain (d : Bool) (N : Nat) :
    List.Chain' (fun a b => IteratorCellShell.inc a = b)
      (traj d N ++ [IteratorCellShell.init d (N + 1)]) := by
  have e1 : (2 * N).pred = 2 * N - 1 := by
    rw [Nat.pred_eq_sub_one]
  have e2 : (2 * N - 1).pred = 2 * N - 2 := by
    rw [Nat.pred_eq_sub_one]
    omega
  have e3 : (2 * N + 1).pred = 2 * N := by
    rw [Nat.pred_eq_sub_one]
    omega
  rcases Nat.eq_zero_or_pos N with h0 | hN
  · subst h0
    rw [traj, if_pos rfl]
    exact List.chain'_pair.2 (inc_zero d)
  · have hN0 : N ≠ 0 := by omega
    rw [traj, if_neg hN0]
    cases d with
    | true =>
        rw [if_pos rfl]
        have hc0 := chain_map_range (f := IteratorCellShell.inc)
          (g := sr0 N) (c := 2 * N) (fun i hi => inc_sr0_row N i hi)
        have hc1 := chain_map_range (f := IteratorCellShell.inc)
          (g := sr1 N) (c := 2 * N) (fun i hi => inc_sr1_row N i hi)
        have hc2 := chain_map_range (f := IteratorCellShell.inc)
          (g := sr2 N) (c := 2 * N) (fun i hi => inc_sr2_row N i hi)
        have hc3 := chain_map_range (f := IteratorCellShell.inc)
          (g := sr3 N) (c := 2 * N) (fun i hi => inc_sr3_row N i hi)
        have hh1 := head?_map_range (sr1 N) (2 * N) (by omega)
        have hh2 := head?_map_range (sr2 N) (2 * N) (by omega)
        have hh3 := head?_map_range (sr3 N) (2 * N) (by omega)
        have hl0 := getLast?_map_range (sr0 N) (2 * N) (by omega)
        have hl1 := getLast?_map_range (sr1 N) (2 * N) (by omega)
        have hl2 := getLast?_map_range (sr2 N) (2 * N) (by omega)
        have hl3 := getLast?_map_range (sr3 N) (2 * N) (by omega)
        rw [e1] at hl0 hl1 hl2 hl3
        have ch01 := chain'_append_sep hc0 hc1 hl0 hh1 (inc_sr0_to_sr1 N hN)
        have hl01 := getLast?_append_of_some
          ((List.range (2 * N)).map (sr0 N)) hl1
        have ch012 := chain'_append_sep ch01 hc2 hl01 hh2
          (inc_sr1_to_sr2 N hN)
        have hl012 := getLast?_append_of_some
          ((List.range (2 * N)).map (sr0 N)
            ++ (List.range (2 * N)).map (sr1 N)) hl2
        have ch0123 := chain'_append_sep ch012 hc3 hl012 hh3
          (inc_sr2_to_sr3 N hN)
        have hl0123 := getLast?_append_of_some
          (((List.range (2 * N)).map (sr0 N)
            ++ (List.range (2 * N)).map (sr1 N))
            ++ (List.range (2 * N)).map (sr2 N)) hl3
        exact chain'_append_sep ch0123 (List.chain'_singleton _) hl0123 rfl
          (inc_sr3_to_next N hN)
    | false =>
        rw [if_neg (by simp)]
        have hcW0 := gridL_chain' (f := IteratorCellShell.inc) (g := st0 N)
          (2 * N) (2 * N - 1) (by omega)
          (fun zi ci hz hc => inc_st0_row N ci zi hz hc)
          (fun zi hz => by rw [e1]; exact inc_st0_wrap N zi hN hz)
        have hcW1 := gridL_chain' (f := IteratorCellShell.inc) (g := st1 N)
          (2 * N) (2 * N - 1) (by omega)
          (fun zi ci hz hc => inc_st1_row N ci zi hz hc)
          (fun zi hz => by rw [e1]; exact inc_st1_wrap N zi hN hz)
        have hcW2 := gridL_chain' (f := IteratorCellShell.inc) (g := st2 N)
          (2 * N) (2 * N - 1) (by omega)
          (fun zi ci hz hc => inc_st2_row N ci zi hz hc)
          (fun zi hz => by rw [e1]; exact inc_st2_wrap N zi hN hz)
        have hcW3 := gridL_chain' (f := IteratorCellShell.inc) (g := st3 N)
          (2 * N) (2 * N - 1) (by omega)
          (fun zi ci hz hc => inc_st3_row N ci zi hz hc)
          (fun zi hz => by rw [e1]; exact inc_st3_wrap N zi hN hz)
        have hcC4 := gridL_chain' (f := IteratorCellShell.inc) (g := st4 N)
          (2 * N + 1) (2 * N + 1) (by omega)
          (fun zi ci hz hc => inc_st4_row N ci zi hz hc)
          (fun zi hz => by rw [e3]; exact inc_st4_wrap N zi hz)
        have hcC5 := gridL_chain' (f := IteratorCellShell.inc) (g := st5 N)
          (2 * N + 1) (2 * N + 1) (by omega)
          (fun zi ci hz hc => inc_st5_row N ci zi hz hc)
          (fun zi hz => by rw [e3]; exact inc_st5_wrap N zi hz)
        have hh1 := gridL_head? (st1 N) (2 * N) (2 * N - 1) (by omega)
          (by omega)
        have hh2 := gridL_head? (st2 N) (2 * N) (2 * N - 1) (by omega)
          (by omega)
        have hh3 := gridL_head? (st3 N) (2 * N) (2 * N - 1) (by omega)
          (by omega)
        have hh4 := gridL_head? (st4 N) (2 * N + 1) (2 * N + 1) (by omega)
          (by omega)
        have hh5 := gridL_head? (st5 N) (2 * N + 1) (2 * N + 1) (by omega)
          (by omega)
        have hl0 := gridL_getLast? (st0 N) (2 * N) (2 * N - 1) (by omega)
          (by omega)
        have hl1 := gridL_getLast? (st1 N) (2 * N) (2 * N - 1) (by omega)
          (by omega)
        have hl2 := gridL_getLast? (st2 N) (2 * N) (2 * N - 1) (by omega)
          (by omega)
        have hl3 := gridL_getLast? (st3 N) (2 * N) (2 * N - 1) (by omega)
          (by omega)
        have hl4 := gridL_getLast? (st4 N) (2 * N + 1) (2 * N + 1) (by omega)
          (by omega)
        have hl5 := gridL_getLast? (st5 N) (2 * N + 1) (2 * N + 1) (by omega)
          (by omega)
        rw [e1, e2] at hl0 hl1 hl2 hl3
        rw [e3] at hl4 hl5
        have ch01 := chain'_append_sep hcW0 hcW1 hl0 hh1
          (inc_st0_to_st1 N hN)
        have hl01 := getLast?_append_of_some
          (gridL (st0 N) (2 * N) (2 * N - 1)) hl1
        have ch012 := chain'_append_sep ch01 hcW2 hl01 hh2
          (inc_st1_to_st2 N hN)
        have hl012 := getLast?_append_of_some
          (gridL (st0 N) (2 * N) (2 * N - 1)
            ++ gridL (st1 N) (2 * N) (2 * N - 1)) hl2
        have ch0123 := chain'_append_sep ch012 hcW3 hl012 hh3
          (inc_st2_to_st3 N hN)
        have hl0123 := getLast?_append_of_some
          ((gridL (st0 N) (2 * N) (2 * N - 1)
            ++ gridL (st1 N) (2 * N) (2 * N - 1))
            ++ gridL (st2 N) (2 * N) (2 * N - 1)) hl3
        have ch01234 := chain'_append_sep ch0123 hcC4 hl0123 hh4
          (inc_st3_to_st4 N hN)
        have hl01234 := getLast?_append_of_some
          (((gridL (st0 N) (2 * N) (2 * N - 1)
            ++ gridL (st1 N) (2 * N) (2 * N - 1))
            ++ gridL (st2 N) (2 * N) (2 * N - 1))
            ++ gridL (st3 N) (2 * N) (2 * N - 1)) hl4
        have ch012345 := chain'_append_sep ch01234 hcC5 hl01234 hh5
          (inc_st4_to_st5 N)
        have hl012345 := getLast?_append_of_some
          ((((gridL (st0 N) (2 * N) (2 * N - 1)
            ++ gridL (st1 N) (2 * N) (2 * N - 1))
            ++ gridL (st2 N) (2 * N) (2 * N - 1))
            ++ gridL (st3 N) (2 * N) (2 * N - 1))
            ++ gridL (st4 N) (2 * N + 1) (2 * N + 1)) hl5
        exact chain'_append_sep ch012345 (List.chain'_singleton _)
          hl012345 rfl (inc_st5_to_next N)

theorem head?_append_of_some {α : Type} {l1 l2 : List α} {a : α}
    (h : l1.head? = some a) : (l1 ++ l2).head? = some a := by
  rw [List.head?_append, h]
  rfl

theorem traj_head (d : Bool) (N : Nat) :
    (traj d N).head? = some (IteratorCellShell.init d N) := by
  rcases Nat.eq_zero_or_pos N with h0 | hN
  · subst h0
    rw [traj, if_pos rfl, init_eq_zero]
    rfl
  · rw [traj, if_neg (by omega)]
    cases d with
    | true =>
        rw [if_pos rfl, init_eq_sr0 N hN]
        exact head?_append_of_some (head?_append_of_some
          (head?_append_of_some (head?_map_range (sr0 N) (2 * N)
            (by omega))))
    | false =>
        rw [if_neg (by simp), init_eq_st0 N hN]
        exact head?_append_of_some (head?_append_of_some
          (head?_append_of_some (head?_append_of_some
            (head?_append_of_some (gridL_head? (st0 N) (2 * N)
              (2 * N - 1) (by omega) (by omega))))))

theorem traj_length (d : Bool) (N : Nat) :
    (traj d N).length = shellSteps d N := by
  rcases Nat.eq_zero_or_pos N with h0 | hN
  · subst h0
    rfl
  · have hN0 : N ≠ 0 := by omega
    cases d with
    | true =>
        rw [traj, if_neg hN0, if_pos rfl, shellSteps, if_neg hN0,
          if_pos rfl]
        simp only [List.length_append, List.length_map, List.length_range]
        omega
    | false =>
        rw [traj, if_neg hN0, if_neg (by decide : ¬(false = true)),
          shellSteps, if_neg hN0, if_neg (by decide : ¬(false = true))]
        simp only [List.length_append, gridL_length]
        obtain ⟨M, rfl⟩ : ∃ M, N = M + 1 := ⟨N - 1, by omega⟩
        have h21 : 2 * (M + 1) - 1 = 2 * M + 1 := by omega
        rw [h21]
        ring

theorem traj_range (d : Bool) (N : Nat) :
    ∀ s ∈ traj d N, s.m_range = (N : Int) := by
  intro s hs
  rcases Nat.eq_zero_or_pos N with h0 | hN
  · subst h0
    rw [traj, if_pos rfl] at hs
    have : s = ⟨0, 5, 0, 0, 0, d⟩ := by simpa using hs
    rw [this]
    rfl
  · rw [traj, if_neg (by omega)] at hs
    cases d with
    | true =>
        rw [if_pos rfl] at hs
        simp only [List.mem_append, List.mem_map, List.mem_range] at hs
        rcases hs with ((⟨i, _, rfl⟩ | ⟨i, _, rfl⟩) | ⟨i, _, rfl⟩)
          | ⟨i, _, rfl⟩ <;> rfl
    | false =>
        rw [if_neg (by simp)] at hs
        simp only [List.mem_append] at hs
        rcases hs with ((((h | h) | h) | h) | h) | h <;>
          · obtain ⟨ci, zi, _, _, rfl⟩ := gridL_mem.1 h
            rfl

theorem traj_chain_head (d : Bool) (N : Nat) :
    (traj d N ++ [IteratorCellShell.init d (N + 1)]).head?
      = some (IteratorCellShell.init d N) :=
  head?_append_of_some (traj_head d N)

theorem iterate_traj_get (d : Bool) (N : Nat) (i : Nat)
    (h : i < (traj d N).length) :
    IteratorCellShell.inc^[i] (IteratorCellShell.init d N)
      = (traj d N).get ⟨i, h⟩ := by
  have hlen : i < (traj d N ++ [IteratorCellShell.init d (N + 1)]).length := by
    rw [List.length_append]
    simp
    omega
  have hit := chain'_iterate _ _ (traj_chain_head d N) (traj_chain d N) i hlen
  rw [hit, List.get_eq_getElem, List.get_eq_getElem]
  exact List.getElem_append_left h

theorem iterate_traj_last (d : Bool) (N : Nat) :
    IteratorCellShell.inc^[(traj d N).length] (IteratorCellShell.init d N)
      = IteratorCellShell.init d (N + 1) := by
  have hlen : (traj d N).length
      < (traj d N ++ [IteratorCellShell.init d (N + 1)]).length := by
    rw [List.length_append]
    simp
  have hit := chain'_iterate _ _ (traj_chain_head d N) (traj_chain d N)
    (traj d N).length hlen
  rw [hit, List.get_eq_getElem,
    List.getElem_append_right (Nat.le_refl (traj d N).length)]
  simp

theorem iterate_traj_ne (d : Bool) (N : Nat) (i : Nat)
    (h : i < (traj d N).length) :
    IteratorCellShell.inc^[i] (IteratorCellShell.init d N)
      ≠ IteratorCellShell.init d (N + 1) := by
  rw [iterate_traj_get d N i h]
  intro hcontr
  have hmem := List.get_mem (traj d N) i h
  rw [hcontr] at hmem
  have hrange := traj_range d N _ hmem
  rw [IteratorCellShell.init, reset_m_range] at hrange
  omega

theorem emitted_eq_traj_map (d : Bool) (N : Nat) :
    emittedOffsets d N = (traj d N).map IteratorCellShell.deref := by
  have hlen : (emittedOffsets d N).length
      = ((traj d N).map IteratorCellShell.deref).length := by
    simp only [emittedOffsets, List.length_map, List.length_range]
    rw [traj_length]
  refine List.ext_getElem hlen ?_
  intro i h1 h2
  simp only [emittedOffsets, List.getElem_map, List.getElem_range]
  have hi : i < (traj d N).length := by
    rw [List.length_map] at h2
    exact h2
  rw [iterate_traj_get d N i hi, List.get_eq_getElem]

theorem map_gridL {α β : Type} (f : α → β) (g : Nat → Nat → α)
    (cols : Nat) : ∀ rows,
    (gridL g cols rows).map f = gridL (fun ci zi => f (g ci zi)) cols rows
  | 0 => rfl
  | rows + 1 => by
      rw [gridL, List.map_append, map_gridL f g cols rows, List.map_map]
      rfl

theorem mem_W0 (N : Nat) (p : Int × Int × Int) :
    p ∈ (gridL (st0 N) (2 * N) (2 * N - 1)).map IteratorCellShell.deref ↔
      (p.2.1 = (N : Int) ∧ -(N : Int) ≤ p.1 ∧ p.1 < (N : Int) ∧
        -(N : Int) + 1 ≤ p.2.2 ∧ p.2.2 < (N : Int)) := by
  obtain ⟨x, y, z⟩ := p
  dsimp only
  rw [map_gridL, gridL_mem]
  constructor
  · rintro ⟨ci, zi, h1, h2, heq⟩
    simp only [IteratorCellShell.deref, st0, Prod.mk.injEq] at heq
    refine ⟨by omega, by omega, by omega, by omega, by omega⟩
  · rintro ⟨hy, hx1, hx2, hz1, hz2⟩
    refine ⟨(x + N).toNat, (z + N - 1).toNat, by omega, by omega, ?_⟩
    simp only [IteratorCellShell.deref, st0, Prod.mk.injEq]
    refine ⟨by omega, by omega, by omega⟩

theorem mem_W1 (N : Nat) (p : Int × Int × Int) :
    p ∈ (gridL (st1 N) (2 * N) (2 * N - 1)).map IteratorCellShell.deref ↔
      (p.1 = (N : Int) ∧ -(N : Int) < p.2.1 ∧ p.2.1 ≤ (N : Int) ∧
        -(N : Int) + 1 ≤ p.2.2 ∧ p.2.2 < (N : Int)) := by
  obtain ⟨x, y, z⟩ := p
  dsimp only
  rw [map_gridL, gridL_mem]
  constructor
  · rintro ⟨ci, zi, h1, h2, heq⟩
    simp only [IteratorCellShell.deref, st1, Prod.mk.injEq] at heq
    refine ⟨by omega, by omega, by omega, by omega, by omega⟩
  · rintro ⟨hx, hy1, hy2, hz1, hz2⟩
    refine ⟨((N : Int) - y).toNat, (z + N - 1).toNat, by omega, by omega, ?_⟩
    simp only [IteratorCellShell.deref, st1, Prod.mk.injEq]
    refine ⟨by omega, by omega, by omega⟩

theorem mem_W2 (N : Nat) (p : Int × Int × Int) :
    p ∈ (gridL (st2 N) (2 * N) (2 * N - 1)).map IteratorCellShell.deref ↔
      (p.2.1 = -(N : Int) ∧ -(N : Int) < p.1 ∧ p.1 ≤ (N : Int) ∧
        -(N : Int) + 1 ≤ p.2.2 ∧ p.2.2 < (N : Int)) := by
  obtain ⟨x, y, z⟩ := p
  dsimp only
  rw [map_gridL, gridL_mem]
  constructor
  · rintro ⟨ci, zi, h1, h2, heq⟩
    simp only [IteratorCellShell.deref, st2, Prod.mk.injEq] at heq
    refine ⟨by omega, by omega, by omega, by omega, by omega⟩
  · rintro ⟨hy, hx1, hx2, hz1, hz2⟩
    refine ⟨((N : Int) - x).toNat, (z + N - 1).toNat, by omega, by omega, ?_⟩
    simp only [IteratorCellShell.deref, st2, Prod.mk.injEq]
    refine ⟨by omega, by omega, by omega⟩

theorem mem_W3 (N : Nat) (p : Int × Int × Int) :
    p ∈ (gridL (st3 N) (2 * N) (2 * N - 1)).map IteratorCellShell.deref ↔
      (p.1 = -(N : Int) ∧ -(N : Int) ≤ p.2.1 ∧ p.2.1 < (N : Int) ∧
        -(N : Int) + 1 ≤ p.2.2 ∧ p.2.2 < (N : Int)) := by
  obtain ⟨x, y, z⟩ := p
  dsimp only
  rw [map_gridL, gridL_mem]
  constructor
  · rintro ⟨ci, zi, h1, h2, heq⟩
    simp only [IteratorCellShell.deref, st3, Prod.mk.injEq] at heq
    refine ⟨by omega, by omega, by omega, by omega, by omega⟩
  · rintro ⟨hx, hy1, hy2, hz1, hz2⟩
    refine ⟨(y + N).toNat, (z + N - 1).toNat, by omega, by omega, ?_⟩
    simp only [IteratorCellShell.deref, st3, Prod.mk.injEq]
    refine ⟨by omega, by omega, by omega⟩

theorem mem_C4 (N : Nat) (p : Int × Int × Int) :
    p ∈ (gridL (st4 N) (2 * N + 1) (2 * N + 1)).map
        IteratorCellShell.deref ↔
      (p.2.2 = -(N : Int) ∧ -(N : Int) ≤ p.1 ∧ p.1 ≤ (N : Int) ∧
        -(N : Int) ≤ p.2.1 ∧ p.2.1 ≤ (N : Int)) := by
  obtain ⟨x, y, z⟩ := p
  dsimp only
  rw [map_gridL, gridL_mem]
  constructor
  · rintro ⟨ci, zi, h1, h2, heq⟩
    simp only [IteratorCellShell.deref, st4, Prod.mk.injEq] at heq
    refine ⟨by omega, by omega, by omega, by omega, by omega⟩
  · rintro ⟨hz, hx1, hx2, hy1, hy2⟩
    refine ⟨(x + N).toNat, (y + N).toNat, by omega, by omega, ?_⟩
    simp only [IteratorCellShell.deref, st4, Prod.mk.injEq]
    refine ⟨by omega, by omega, by omega⟩

theorem mem_C5 (N : Nat) (p : Int × Int × Int) :
    p ∈ (gridL (st5 N) (2 * N + 1) (2 * N + 1)).map
        IteratorCellShell.deref ↔
      (p.2.2 = (N : Int) ∧ -(N : Int) ≤ p.1 ∧ p.1 ≤ (N : Int) ∧
        -(N : Int) ≤ p.2.1 ∧ p.2.1 ≤ (N : Int)) := by
  obtain ⟨x, y, z⟩ := p
  dsimp only
  rw [map_gridL, gridL_mem]
  constructor
  · rintro ⟨ci, zi, h1, h2, heq⟩
    simp only [IteratorCellShell.deref, st5, Prod.mk.injEq] at heq
    refine ⟨by omega, by omega, by omega, by omega, by omega⟩
  · rintro ⟨hz, hx1, hx2, hy1, hy2⟩
    refine ⟨(x + N).toNat, (y + N).toNat, by omega, by omega, ?_⟩
    simp only [IteratorCellShell.deref, st5, Prod.mk.injEq]
    refine ⟨by omega, by omega, by omega⟩

theorem mem_S0 (N : Nat) (p : Int × Int × Int) :
    p ∈ ((List.range (2 * N)).map (sr0 N)).map IteratorCellShell.deref ↔
      (p.2.1 = (N : Int) ∧ -(N : Int) ≤ p.1 ∧ p.1 < (N : Int) ∧
        p.2.2 = 0) := by
  obtain ⟨x, y, z⟩ := p
  dsimp only
  rw [List.map_map]
  simp only [List.mem_map, List.mem_range, Function.comp]
  constructor
  · rintro ⟨ci, h1, heq⟩
    simp only [IteratorCellShell.deref, sr0, Prod.mk.injEq] at heq
    refine ⟨by omega, by omega, by omega, by omega⟩
  · rintro ⟨hy, hx1, hx2, hz⟩
    refine ⟨(x + N).toNat, by omega, ?_⟩
    simp only [IteratorCellShell.deref, sr0, Prod.mk.injEq]
    refine ⟨by omega, by omega, by omega⟩

theorem mem_S1 (N : Nat) (p : Int × Int × Int) :
    p ∈ ((List.range (2 * N)).map (sr1 N)).map IteratorCellShell.deref ↔
      (p.1 = (N : Int) ∧ -(N : Int) < p.2.1 ∧ p.2.1 ≤ (N : Int) ∧
        p.2.2 = 0) := by
  obtain ⟨x, y, z⟩ := p
  dsimp only
  rw [List.map_map]
  simp only [List.mem_map, List.mem_range, Function.comp]
  constructor
  · rintro ⟨ci, h1, heq⟩
    simp only [IteratorCellShell.deref, sr1, Prod.mk.injEq] at heq
    refine ⟨by omega, by omega, by omega, by omega⟩
  · rintro ⟨hx, hy1, hy2, hz⟩
    refine ⟨((N : Int) - y).toNat, by omega, ?_⟩
    simp only [IteratorCellShell.deref, sr1, Prod.mk.injEq]
    refine ⟨by omega, by omega, by omega⟩

theorem mem_S2 (N : Nat) (p : Int × Int × Int) :
    p ∈ ((List.range (2 * N)).map (sr2 N)).map IteratorCellShell.deref ↔
      (p.2.1 = -(N : Int) ∧ -(N : Int) < p.1 ∧ p.1 ≤ (N : Int) ∧
        p.2.2 = 0) := by
  obtain ⟨x, y, z⟩ := p
  dsimp only
  rw [List.map_map]
  simp only [List.mem_map, List.mem_range, Function.comp]
  constructor
  · rintro ⟨ci, h1, heq⟩
    simp only [IteratorCellShell.deref, sr2, Prod.mk.injEq] at heq
    refine ⟨by omega, by omega, by omega, by omega⟩
  · rintro ⟨hy, hx1, hx2, hz⟩
    refine ⟨((N : Int) - x).toNat, by omega, ?_⟩
    simp only [IteratorCellShell.deref, sr2, Prod.mk.injEq]
    refine ⟨by omega, by omega, by omega⟩

theorem mem_S3 (N : Nat) (p : Int × Int × Int) :
    p ∈ ((List.range (2 * N)).map (sr3 N)).map IteratorCellShell.deref ↔
      (p.1 = -(N : Int) ∧ -(N : Int) ≤ p.2.1 ∧ p.2.1 < (N : Int) ∧
        p.2.2 = 0) := by
  obtain ⟨x, y, z⟩ := p
  dsimp only
  rw [List.map_map]
  simp only [List.mem_map, List.mem_range, Function.comp]
  constructor
  · rintro ⟨ci, h1, heq⟩
    simp only [IteratorCellShell.deref, sr3, Prod.mk.injEq] at heq
    refine ⟨by omega, by omega, by omega, by omega⟩
  · rintro ⟨hx, hy1, hy2, hz⟩
    refine ⟨(y + N).toNat, by omega, ?_⟩
    simp only [IteratorCellShell.deref, sr3, Prod.mk.injEq]
    refine ⟨by omega, by omega, by omega⟩

theorem emitted_nodup (d : Bool) (N : Nat) : (emittedOffsets d N).Nodup := by
  rw [emitted_eq_traj_map]
  rcases Nat.eq_zero_or_pos N with h0 | hN
  · subst h0
    rw [traj, if_pos rfl]
    simp
  · rw [traj, if_neg (by omega)]
    cases d with
    | true =>
        rw [if_pos rfl]
        simp only [List.map_append]
        have n0 : (((List.range (2 * N)).map (sr0 N)).map
            IteratorCellShell.deref).Nodup := by
          rw [List.map_map]
          refine List.Nodup.map_on ?_ (List.nodup_range _)
          intro a ha b hb heq
          simp only [Function.comp, IteratorCellShell.deref, sr0,
            Prod.mk.injEq] at heq
          omega
        have n1 : (((List.range (2 * N)).map (sr1 N)).map
            IteratorCellShell.deref).Nodup := by
          rw [List.map_map]
          refine List.Nodup.map_on ?_ (List.nodup_range _)
          intro a ha b hb heq
          simp only [Function.comp, IteratorCellShell.deref, sr1,
            Prod.mk.injEq] at heq
          omega
        have n2 : (((List.range (2 * N)).map (sr2 N)).map
            IteratorCellShell.deref).Nodup := by
          rw [List.map_map]
          refine List.Nodup.map_on ?_ (List.nodup_range _)
          intro a ha b hb heq
          simp only [Function.comp, IteratorCellShell.deref, sr2,
            Prod.mk.injEq] at heq
          omega
        have n3 : (((List.range (2 * N)).map (sr3 N)).map
            IteratorCellShell.deref).Nodup := by
          rw [List.map_map]
          refine List.Nodup.map_on ?_ (List.nodup_range _)
          intro a ha b hb heq
          simp only [Function.comp, IteratorCellShell.deref, sr3,
            Prod.mk.injEq] at heq
          omega
        refine List.Nodup.append (List.Nodup.append
          (List.Nodup.append n0 n1 ?_) n2 ?_) n3 ?_
        · intro p h0 h1
          rw [mem_S0] at h0
          rw [mem_S1] at h1
          omega
        · intro p hp h2
          rw [List.mem_append, mem_S0, mem_S1] at hp
          rw [mem_S2] at h2
          omega
        · intro p hp h3
          rw [List.mem_append, List.mem_append, mem_S0, mem_S1,
            mem_S2] at hp
          rw [mem_S3] at h3
          omega
    | false =>
        rw [if_neg (by decide)]
        simp only [List.map_append]
        have n0 : ((gridL (st0 N) (2 * N) (2 * N - 1)).map
            IteratorCellShell.deref).Nodup := by
          rw [map_gridL]
          refine gridL_nodup ?_
          intro a b a2 b2 ha hb ha2 hb2 heq
          simp only [IteratorCellShell.deref, st0, Prod.mk.injEq] at heq
          exact ⟨by omega, by omega⟩
        have n1 : ((gridL (st1 N) (2 * N) (2 * N - 1)).map
            IteratorCellShell.deref).Nodup := by
          rw [map_gridL]
          refine gridL_nodup ?_
          intro a b a2 b2 ha hb ha2 hb2 heq
          simp only [IteratorCellShell.deref, st1, Prod.mk.injEq] at heq
          exact ⟨by omega, by omega⟩
        have n2 : ((gridL (st2 N) (2 * N) (2 * N - 1)).map
            IteratorCellShell.deref).Nodup := by
          rw [map_gridL]
          refine gridL_nodup ?_
          intro a b a2 b2 ha hb ha2 hb2 heq
          simp only [IteratorCellShell.deref, st2, Prod.mk.injEq] at heq
          exact ⟨by omega, by omega⟩
        have n3 : ((gridL (st3 N) (2 * N) (2 * N - 1)).map
            IteratorCellShell.deref).Nodup := by
          rw [map_gridL]
          refine gridL_nodup ?_
          intro a b a2 b2 ha hb ha2 hb2 heq
          simp only [IteratorCellShell.deref, st3, Prod.mk.injEq] at heq
          exact ⟨by omega, by omega⟩
        have n4 : ((gridL (st4 N) (2 * N + 1) (2 * N + 1)).map
            IteratorCellShell.deref).Nodup := by
          rw [map_gridL]
          refine gridL_nodup ?_
          intro a b a2 b2 ha hb ha2 hb2 heq
          simp only [IteratorCellShell.deref, st4, Prod.mk.injEq] at heq
          exact ⟨by omega, by omega⟩
        have n5 : ((gridL (st5 N) (2 * N + 1) (2 * N + 1)).map
            IteratorCellShell.deref).Nodup := by
          rw [map_gridL]
          refine gridL_nodup ?_
          intro a b a2 b2 ha hb ha2 hb2 heq
          simp only [IteratorCellShell.deref, st5, Prod.mk.injEq] at heq
          exact ⟨by omega, by omega⟩
        refine List.Nodup.append (List.Nodup.append (List.Nodup.append
          (List.Nodup.append (List.Nodup.append n0 n1 ?_) n2 ?_)
          n3 ?_) n4 ?_) n5 ?_
        · intro p h0 h1
          rw [mem_W0] at h0
          rw [mem_W1] at h1
          omega
        · intro p hp h2
          rw [List.mem_append, mem_W0, mem_W1] at hp
          rw [mem_W2] at h2
          omega
        · intro p hp h3
          rw [List.mem_append, List.mem_append, mem_W0, mem_W1,
            mem_W2] at hp
          rw [mem_W3] at h3
          omega
        · intro p hp h4
          rw [List.mem_append, List.mem_append, List.mem_append, mem_W0,
            mem_W1, mem_W2, mem_W3] at hp
          rw [mem_C4] at h4
          omega
        · intro p hp h5
          rw [List.mem_append, List.mem_append, List.mem_append,
            List.mem_append, mem_W0, mem_W1, mem_W2, mem_W3,
            mem_C4] at hp
          rw [mem_C5] at h5
          omega

theorem mem_emitted_zero (d : Bool) (p : Int × Int × Int) :
    p ∈ emittedOffsets d 0 ↔ p = ((0 : Int), (0 : Int), (0 : Int)) := by
  rw [emitted_eq_traj_map, traj, if_pos rfl]
  simp [IteratorCellShell.deref]

theorem mem_emitted_2d (N : Nat) (hN : 1 ≤ N) (p : Int × Int × Int) :
    p ∈ emittedOffsets true N ↔
      (max p.1.natAbs p.2.1.natAbs = N ∧ p.2.2 = 0) := by
  rw [emitted_eq_traj_map, traj, if_neg (by omega), if_pos rfl]
  simp only [List.map_append, List.mem_append]
  rw [mem_S0, mem_S1, mem_S2, mem_S3]
  omega

theorem mem_emitted_3d (N : Nat) (hN : 1 ≤ N) (p : Int × Int × Int) :
    p ∈ emittedOffsets false N ↔
      max (max p.1.natAbs p.2.1.natAbs) p.2.2.natAbs = N := by
  rw [emitted_eq_traj_map, traj, if_neg (by omega), if_neg (by decide)]
  simp only [List.map_append, List.mem_append]
  rw [mem_W0, mem_W1, mem_W2, mem_W3, mem_C4, mem_C5]
  omega

/-- C1: advancing the shell enumerator from the initial state of shell N
for exactly `shellSteps` steps reaches the initial state of shell N+1
and reaches it for the first time then; the offsets dereferenced along
the way contain no duplicate and are exactly the integer offsets at
Chebyshev distance N from the origin (with dz = 0 throughout in 2D; for
N = 0 the single offset (0,0,0)). -/
theorem C1_shell_enumeration (N : Nat) (d : Bool) :
    IteratorCellShell.inc^[shellSteps d N] (IteratorCellShell.init d N)
        = IteratorCellShell.init d (N + 1) ∧
    (∀ i, i < shellSteps d N →
        IteratorCellShell.inc^[i] (IteratorCellShell.init d N)
          ≠ IteratorCellShell.init d (N + 1)) ∧
    (emittedOffsets d N).Nodup ∧
    (∀ p : Int × Int × Int, p ∈ emittedOffsets d N ↔
        (max (max p.1.natAbs p.2.1.natAbs) p.2.2.natAbs = N ∧
          (d = true → p.2.2 = 0))) := by
  refine ⟨?_, ?_, emitted_nodup d N, ?_⟩
  · rw [← traj_length d N]
    exact iterate_traj_last d N
  · intro i hi
    rw [← traj_length d N] at hi
    exact iterate_traj_ne d N i hi
  · intro p
    rcases Nat.eq_zero_or_pos N with h0 | hN
    · subst h0
      rw [mem_emitted_zero]
      obtain ⟨x, y, z⟩ := p
      dsimp only
      constructor
      · intro hp
        rw [Prod.mk.injEq, Prod.mk.injEq] at hp
        refine ⟨by omega, fun _ => by omega⟩
      · rintro ⟨hmax, _⟩
        rw [Prod.mk.injEq, Prod.mk.injEq]
        omega
    · cases d with
      | true =>
          rw [mem_emitted_2d N hN]
          constructor
          · rintro ⟨hmax, hz⟩
            exact ⟨by omega, fun _ => hz⟩
          · rintro ⟨hmax, hz⟩
            have hz0 : p.2.2 = 0 := hz rfl
            exact ⟨by omega, hz0⟩
      | false =>
          rw [mem_emitted_3d N hN]
          constructor
          · intro hmax
            exact ⟨hmax, fun hcontr => by cases hcontr⟩
          · rintro ⟨hmax, _⟩
            exact hmax

/-! ### Ball-query correctness -/

theorem floor_diff_le (u v c : ℚ) (h : u - v ≤ c) :
    ⌊u⌋ - ⌊v⌋ ≤ ⌊c⌋ + 1 := by
  have h1 : u ≤ v + c := by linarith
  have h2 : ⌊u⌋ ≤ ⌊v + c⌋ := Int.floor_le_floor h1
  have h3 : ⌊v + c⌋ < ⌊v⌋ + ⌊c⌋ + 2 := by
    rw [Int.floor_lt]
    push_cast
    have hv := Int.lt_floor_add_one v
    have hc := Int.lt_floor_add_one c
    linarith
  omega

theorem floor_diff_le_one (u v c : ℚ) (h : u - v ≤ c) (hc : c ≤ 1) :
    ⌊u⌋ - ⌊v⌋ ≤ 1 := by
  have h1 : u ≤ v + 1 := by linarith
  have h2 : ⌊u⌋ ≤ ⌊v + 1⌋ := Int.floor_le_floor h1
  rw [Int.floor_add_one] at h2
  omega

theorem abs_le_of_sq_le (x r : ℚ) (hr : 0 ≤ r) (h : x ^ 2 ≤ r ^ 2) :
    |x| ≤ r := by
  rcases abs_cases x with ⟨he, _⟩ | ⟨he, _⟩ <;> rw [he] <;> nlinarith

theorem axisCells_pos (L w : ℚ) : 0 < axisCells L w := by
  rw [axisCells]
  omega

theorem axisCells_width (L w : ℚ) (hw : 0 < w) (h2 : 2 ≤ axisCells L w) :
    w * (axisCells L w : ℚ) ≤ L := by
  rw [axisCells] at h2 ⊢
  have hf : (2 : Int) ≤ ⌊L / w⌋ := by omega
  have hmax : max ⌊L / w⌋.toNat 1 = ⌊L / w⌋.toNat := by omega
  rw [hmax]
  have h1 : ((⌊L / w⌋ : ℤ) : ℚ) ≤ L / w := Int.floor_le _
  have hc1 : ((⌊L / w⌋.toNat : ℕ) : ℚ) = ((⌊L / w⌋ : ℤ) : ℚ) := by
    have := Int.toNat_of_nonneg (show (0 : ℤ) ≤ ⌊L / w⌋ by omega)
    exact_mod_cast congrArg (fun z : ℤ => (z : ℚ)) this
  rw [hc1]
  calc w * ((⌊L / w⌋ : ℤ) : ℚ) ≤ w * (L / w) := by
        exact mul_le_mul_of_nonneg_left h1 (le_of_lt hw)
    _ = L := by field_simp

theorem ballSearchRadius_cast (r w : ℚ) (hr : 0 < r) (hw : 0 < w) :
    (ballSearchRadius r w : Int) = ⌈r / w⌉ + extraSearchWidth r w := by
  rw [ballSearchRadius]
  have hge : (1 : Int) ≤ ⌈r / w⌉ := Int.ceil_pos.2 (div_pos hr hw)
  have hex : extraSearchWidth r w = 0 ∨ extraSearchWidth r w = 1 := by
    rw [extraSearchWidth]
    split <;> simp
  omega

theorem ballSearchRadius_pos (r w : ℚ) (hr : 0 < r) (hw : 0 < w) :
    1 ≤ ballSearchRadius r w := by
  have h := ballSearchRadius_cast r w hr hw
  have hge : (1 : Int) ≤ ⌈r / w⌉ := Int.ceil_pos.2 (div_pos hr hw)
  have hex : extraSearchWidth r w = 0 ∨ extraSearchWidth r w = 1 := by
    rw [extraSearchWidth]
    split <;> simp
  omega

theorem axis_cover_core (L w r : ℚ) (hL : 0 < L) (hw : 0 < w)
    (hr : 0 < r) (hn2 : 2 ≤ axisCells L w) (a b2 : ℚ)
    (hdist : |a - b2| ≤ r) :
    (cellCoordAxis L (axisCells L w) a
      - cellCoordAxis L (axisCells L w) b2).natAbs
        ≤ ballSearchRadius r w := by
  have hnpos : 0 < axisCells L w := axisCells_pos L w
  have hnq : (0 : ℚ) < ((axisCells L w : Nat) : ℚ) := by
    exact_mod_cast hnpos
  set n : ℚ := ((axisCells L w : Nat) : ℚ) with hnq2
  have hUV : |(a / L + 1 / 2) * n - (b2 / L + 1 / 2) * n| ≤ r * n / L := by
    have harg : (a / L + 1 / 2) * n - (b2 / L + 1 / 2) * n
        = (a - b2) * n / L := by
      field_simp
      ring
    rw [harg]
    have habs : |(a - b2) * n / L| = |a - b2| * n / L := by
      rw [abs_div, abs_mul, abs_of_pos hL, abs_of_pos hnq]
    rw [habs]
    gcongr
  have hd1 := abs_le.1 hUV
  rw [cellCoordAxis, cellCoordAxis, ← hnq2]
  by_cases hrw : r = w
  · have hc1 : r * n / L ≤ 1 := by
      rw [div_le_one hL, hrw]
      exact axisCells_width L w hw hn2
    have d1 := floor_diff_le_one ((a / L + 1 / 2) * n)
      ((b2 / L + 1 / 2) * n) (r * n / L) (by linarith [hd1.2]) hc1
    have d2 := floor_diff_le_one ((b2 / L + 1 / 2) * n)
      ((a / L + 1 / 2) * n) (r * n / L) (by linarith [hd1.1]) hc1
    have hR := ballSearchRadius_pos r w hr hw
    omega
  · have hwn := axisCells_width L w hw hn2
    have hmono : r * n / L ≤ r / w := by
      rw [div_le_div_iff₀ hL hw]
      nlinarith
    have hfloor : ⌊r * n / L⌋ ≤ ⌈r / w⌉ :=
      le_trans (Int.floor_le_floor hmono) (Int.floor_le_ceil _)
    have d1 := floor_diff_le ((a / L + 1 / 2) * n)
      ((b2 / L + 1 / 2) * n) (r * n / L) (by linarith [hd1.2])
    have d2 := floor_diff_le ((b2 / L + 1 / 2) * n)
      ((a / L + 1 / 2) * n) (r * n / L) (by linarith [hd1.1])
    have hR : (ballSearchRadius r w : Int) = ⌈r / w⌉ + 1 := by
      rw [ballSearchRadius_cast r w hr hw, extraSearchWidth, if_neg hrw]
    omega

theorem axis_cover (L w r : ℚ) (hL : 0 < L) (hw : 0 < w) (hr : 0 < r)
    (pb : Bool) (a b : ℚ) (hd : |deltaAxis pb L a b| ≤ r) :
    ∃ δ : Int, δ.natAbs ≤ ballSearchRadius r w ∧
      (cellCoordAxis L (axisCells L w) b + δ) % (axisCells L w : Int)
        = cellCoordAxis L (axisCells L w) a % (axisCells L w : Int) := by
  have hnpos : 0 < axisCells L w := axisCells_pos L w
  rcases le_or_lt 2 (axisCells L w) with hn2 | hn1
  · set k : Int := if pb = true then round ((a - b) / L) else 0 with hk
    have hdist : |a - (b + (k : ℚ) * L)| ≤ r := by
      cases pb with
      | false =>
          simp only [deltaAxis, Bool.false_eq_true, if_false] at hd
          have hk0 : k = 0 := by rw [hk]; simp
          rw [hk0]
          simpa using hd
      | true =>
          simp only [deltaAxis, if_true] at hd
          have hkr : k = round ((a - b) / L) := by rw [hk]; simp
          rw [hkr]
          have harg : a - (b + ((round ((a - b) / L) : ℤ) : ℚ) * L)
              = a - b - L * ((round ((a - b) / L) : ℤ) : ℚ) := by ring
          rw [harg]
          exact hd
    have hshift : cellCoordAxis L (axisCells L w) (b + (k : ℚ) * L)
        = cellCoordAxis L (axisCells L w) b + k * (axisCells L w : Int) := by
      rw [cellCoordAxis, cellCoordAxis]
      have harg : ((b + (k : ℚ) * L) / L + 1 / 2)
            * ((axisCells L w : Nat) : ℚ)
          = (b / L + 1 / 2) * ((axisCells L w : Nat) : ℚ)
            + ((k * (axisCells L w : Int) : Int) : ℚ) := by
        push_cast
        field_simp
        ring
      rw [harg, Int.floor_add_int]
    have hcore := axis_cover_core L w r hL hw hr hn2 a (b + (k : ℚ) * L)
      hdist
    refine ⟨cellCoordAxis L (axisCells L w) a
      - cellCoordAxis L (axisCells L w) (b + (k : ℚ) * L), hcore, ?_⟩
    rw [hshift]
    have harr : cellCoordAxis L (axisCells L w) b
        + (cellCoordAxis L (axisCells L w) a
          - (cellCoordAxis L (axisCells L w) b
            + k * (axisCells L w : Int)))
        = cellCoordAxis L (axisCells L w) a
          + (-k) * (axisCells L w : Int) := by
      ring
    rw [harr, Int.add_mul_emod_self]
  · have h1 : ((axisCells L w : Nat) : Int) = 1 := by omega
    refine ⟨0, by simp, ?_⟩
    rw [h1, Int.emod_one, Int.emod_one]

theorem mem_ballSearchOffsets (R : Nat) (p : Int × Int × Int) :
    p ∈ ballSearchOffsets R ↔
      max (max p.1.natAbs p.2.1.natAbs) p.2.2.natAbs ≤ R := by
  obtain ⟨x, y, z⟩ := p
  dsimp only
  rw [ballSearchOffsets]
  simp only [List.mem_flatMap, List.mem_range]
  constructor
  · rintro ⟨k, hk, hp⟩
    rcases Nat.eq_zero_or_pos k with h0 | hkp
    · subst h0
      rw [mem_emitted_zero] at hp
      rw [Prod.mk.injEq, Prod.mk.injEq] at hp
      omega
    · rw [mem_emitted_3d k hkp] at hp
      dsimp only at hp
      omega
  · intro h
    refine ⟨max (max x.natAbs y.natAbs) z.natAbs, by omega, ?_⟩
    rcases Nat.eq_zero_or_pos (max (max x.natAbs y.natAbs) z.natAbs)
      with h0 | hkp
    · rw [h0, mem_emitted_zero, Prod.mk.injEq, Prod.mk.injEq]
      omega
    · rw [mem_emitted_3d _ hkp]

theorem getCellIndex_congr (w h d : Int) (hw : 0 < w) (hh : 0 < h)
    (hd : 0 < d) (c c2 : Int × Int × Int) (h1 : c.1 % w = c2.1 % w)
    (h2 : c.2.1 % h = c2.2.1 % h) (h3 : c.2.2 % d = c2.2.2 % d) :
    getCellIndex w h d c = getCellIndex w h d c2 := by
  rw [getCellIndex, getCellIndex,
    wrapCellCoord_eq_emod w _ hw, wrapCellCoord_eq_emod h _ hh,
    wrapCellCoord_eq_emod d _ hd, wrapCellCoord_eq_emod w _ hw,
    wrapCellCoord_eq_emod h _ hh, wrapCellCoord_eq_emod d _ hd,
    h1, h2, h3]

/-- C2: over the spec model of the cell grid and the minimum-image
metric, the ball query yields a point index exactly when the point lies
within r_max of the query point (squared comparison) and survives the
exclude-self filter: the set of yielded indices equals the brute-force
set, for periodic and non-periodic axes alike; no index is yielded
twice. -/
theorem C2_ball_query (m : LinkCellModel) (q : ℚ × ℚ × ℚ) (qidx : Nat)
    (r : ℚ) (ex : Bool) (hLx : 0 < m.Lx) (hLy : 0 < m.Ly)
    (hLz : 0 < m.Lz) (hw : 0 < m.cell_width) (hr : 0 < r) :
    (∀ i, i ∈ m.ballQuery q qidx r ex ↔
        i ∈ m.bruteForceBall q qidx r ex) ∧
    (∀ i, i ∈ m.bruteForceBall q qidx r ex ↔
        (i < m.n_points ∧ m.distSq (m.pt i) q ≤ r ^ 2 ∧
          (ex = true → i ≠ qidx))) ∧
    (m.ballQuery q qidx r ex).Nodup := by
  have hbrute : ∀ i, i ∈ m.bruteForceBall q qidx r ex ↔
      (i < m.n_points ∧ m.distSq (m.pt i) q ≤ r ^ 2 ∧
        (ex = true → i ≠ qidx)) := by
    intro i
    rw [LinkCellModel.bruteForceBall]
    simp only [List.mem_filter, List.mem_range, decide_eq_true_eq]
    constructor
    · rintro ⟨hi, hdist, hex⟩
      refine ⟨hi, hdist, fun he => ?_⟩
      rcases hex with hex | hex
      · exact absurd he hex
      · exact hex
    · rintro ⟨hi, hdist, hex⟩
      refine ⟨hi, hdist, ?_⟩
      by_cases he : ex = true
      · exact Or.inr (hex he)
      · exact Or.inl he
  refine ⟨?_, hbrute, ?_⟩
  · intro i
    rw [hbrute i, LinkCellModel.ballQuery]
    simp only [List.mem_flatMap, List.mem_filter, List.mem_range,
      decide_eq_true_eq]
    constructor
    · rintro ⟨cid, hcid, hi, hcond⟩
      refine ⟨hi, hcond.2.1, fun he => ?_⟩
      rcases hcond.2.2 with hex | hex
      · exact absurd he hex
      · exact hex
    · rintro ⟨hi, hdist, hex⟩
      have hex2 : ¬ex = true ∨ i ≠ qidx := by
        by_cases he : ex = true
        · exact Or.inr (hex he)
        · exact Or.inl he
      refine ⟨m.cellIdOf (m.pt i), ?_, hi, rfl, hdist, hex2⟩
      rw [LinkCellModel.searchedCells, List.mem_dedup, List.mem_map]
      have hdx : |deltaAxis m.px m.Lx (m.pt i).1 q.1| ≤ r := by
        apply abs_le_of_sq_le _ _ (le_of_lt hr)
        have h2 := sq_nonneg (deltaAxis m.py m.Ly (m.pt i).2.1 q.2.1)
        have h3 := sq_nonneg (deltaAxis m.pz m.Lz (m.pt i).2.2 q.2.2)
        rw [LinkCellModel.distSq] at hdist
        linarith
      have hdy : |deltaAxis m.py m.Ly (m.pt i).2.1 q.2.1| ≤ r := by
        apply abs_le_of_sq_le _ _ (le_of_lt hr)
        have h2 := sq_nonneg (deltaAxis m.px m.Lx (m.pt i).1 q.1)
        have h3 := sq_nonneg (deltaAxis m.pz m.Lz (m.pt i).2.2 q.2.2)
        rw [LinkCellModel.distSq] at hdist
        linarith
      have hdz : |deltaAxis m.pz m.Lz (m.pt i).2.2 q.2.2| ≤ r := by
        apply abs_le_of_sq_le _ _ (le_of_lt hr)
        have h2 := sq_nonneg (deltaAxis m.px m.Lx (m.pt i).1 q.1)
        have h3 := sq_nonneg (deltaAxis m.py m.Ly (m.pt i).2.1 q.2.1)
        rw [LinkCellModel.distSq] at hdist
        linarith
      obtain ⟨δx, hbx, hex1⟩ := axis_cover m.Lx m.cell_width r hLx hw hr
        m.px (m.pt i).1 q.1 hdx
      obtain ⟨δy, hby, hey1⟩ := axis_cover m.Ly m.cell_width r hLy hw hr
        m.py (m.pt i).2.1 q.2.1 hdy
      obtain ⟨δz, hbz, hez1⟩ := axis_cover m.Lz m.cell_width r hLz hw hr
        m.pz (m.pt i).2.2 q.2.2 hdz
      refine ⟨(δx, δy, δz), ?_, ?_⟩
      · rw [mem_ballSearchOffsets]
        dsimp only
        omega
      · rw [LinkCellModel.cellIdOf]
        have hwx : (0 : Int) < (m.nx : Int) := by
          have := axisCells_pos m.Lx m.cell_width
          rw [LinkCellModel.nx]
          omega
        have hwy : (0 : Int) < (m.ny : Int) := by
          have := axisCells_pos m.Ly m.cell_width
          rw [LinkCellModel.ny]
          omega
        have hwz : (0 : Int) < (m.nz : Int) := by
          have := axisCells_pos m.Lz m.cell_width
          rw [LinkCellModel.nz]
          omega
        refine getCellIndex_congr _ _ _ hwx hwy hwz _ _ ?_ ?_ ?_
        · dsimp only [addOffset, LinkCellModel.cellCoordOf,
            LinkCellModel.nx]
          exact hex1
        · dsimp only [addOffset, LinkCellModel.cellCoordOf,
            LinkCellModel.ny]
          exact hey1
        · dsimp only [addOffset, LinkCellModel.cellCoordOf,
            LinkCellModel.nz]
          exact hez1
  · rw [LinkCellModel.ballQuery, List.nodup_flatMap]
    constructor
    · intro cid hcid
      exact List.Nodup.filter _ (List.nodup_range _)
    · have hnd : (m.searchedCells q
          (ballSearchRadius r m.cell_width)).Nodup := by
        rw [LinkCellModel.searchedCells]
        exact List.nodup_dedup _
      refine hnd.imp ?_
      intro c1 c2 hne i hi1 hi2
      simp only [List.mem_filter, List.mem_range,
        decide_eq_true_eq] at hi1 hi2
      exact hne (hi1.2.1 ▸ hi2.2.1)

theorem C2_ball_query_witness :
    (∀ i, i ∈ mdlC2.ballQuery ((0 : ℚ), (0 : ℚ), (0 : ℚ)) 0 (3 / 2) true
        ↔ i ∈ mdlC2.bruteForceBall ((0 : ℚ), (0 : ℚ), (0 : ℚ)) 0 (3 / 2)
            true) ∧
    (∀ i, i ∈ mdlC2.bruteForceBall ((0 : ℚ), (0 : ℚ), (0 : ℚ)) 0 (3 / 2)
          true ↔
        (i < mdlC2.n_points ∧
          mdlC2.distSq (mdlC2.pt i) ((0 : ℚ), (0 : ℚ), (0 : ℚ))
            ≤ (3 / 2 : ℚ) ^ 2 ∧ (true = true → i ≠ 0))) ∧
    (mdlC2.ballQuery ((0 : ℚ), (0 : ℚ), (0 : ℚ)) 0 (3 / 2) true).Nodup :=
  C2_ball_query mdlC2 ((0 : ℚ), (0 : ℚ), (0 : ℚ)) 0 (3 / 2) true
    (by norm_num [mdlC2]) (by norm_num [mdlC2]) (by norm_num [mdlC2])
    (by norm_num [mdlC2]) (by norm_num)

end Freud
